import Mathlib

/-!
Verification development for the `subtile` subtitle decoding library.

Each Rust function relevant to the checked properties is shallowly embedded
as an executable Lean definition. Machine integers are modelled as `Nat`
(with explicit `% 2 ^ w` where wrap-around matters), byte buffers as
`List Nat` whose elements are below 256, fallible code as `Option` /
`Except`, Rust panics (assertion failures, out-of-range indexing,
underflowing subtraction of `usize`) as an explicit `panic` outcome where
they can fire, and `f64` subtitle times as `ℚ` (the back-fill and clock
arithmetic only adds, subtracts, divides by constants and takes `min`, so
the rational model mirrors the float code structurally).

The file is organised as definitions first, theorems second.
-/

set_option autoImplicit false

namespace Subtile

/-! ### Bit-level cursor

Model of the `nom` bit-level input `(&[u8], usize)`: a list of remaining
bytes plus a bit offset into the first byte, bits read MSB-first.
Used by `vobsub/mpeg2/clock.rs` and the RLE parser in `vobsub/img.rs`.
-/

/-- A bit cursor: remaining bytes and the bit offset (0..7) into the first byte. -/
structure BitPos where
  bytes : List Nat
  off : Nat
  deriving DecidableEq, Repr

/-- Read a single bit (MSB-first) and advance the cursor. -/
def takeBit (p : BitPos) : Option (Nat × BitPos) :=
  match p.bytes with
  | [] => none
  | b :: rest =>
    let bit := b / 2 ^ (7 - p.off) % 2
    if p.off + 1 ≥ 8 then some (bit, ⟨rest, 0⟩) else some (bit, ⟨b :: rest, p.off + 1⟩)

/-- Accumulating helper for `takeBits`. -/
def takeBitsAux : Nat → Nat → BitPos → Option (Nat × BitPos)
  | 0, acc, p => some (acc, p)
  | n + 1, acc, p =>
    match takeBit p with
    | none => none
    | some (bit, p') => takeBitsAux n (acc * 2 + bit) p'

/-- Model of `nom::bits::complete::take`: read `n` bits MSB-first as one value. -/
def takeBits (n : Nat) (p : BitPos) : Option (Nat × BitPos) :=
  takeBitsAux n 0 p

/-- Model of `nom::bits::complete::tag`: read `n` bits and require the value `v`. -/
def tagBits (v n : Nat) (p : BitPos) : Option BitPos :=
  match takeBits n p with
  | none => none
  | some (x, p') => if x = v then some p' else none

/-! ### MPEG-2 System Time Clock (`vobsub/mpeg2/clock.rs`)

`Clock` packs the 33-bit 90 kHz base and the 9-bit extension into one
`u64`: `base` stores `stc << 9`, `with_ext` does `value & !0x1f | ext`,
and `as_seconds` computes `((value >> 9) + (value & 0x1F) / 300) / 90000`.
The bit masks `!0x1f` / `0x1F` are transcribed exactly as written in the
source (five low bits, although the extension is nine bits wide).
-/

/-- The 90 kHz System Time Clock with extension, stored as one `u64`. -/
structure Clock where
  value : Nat
  deriving DecidableEq, Repr

/-- Model of `Clock::base`: `stc << 9` as a `u64`. -/
def Clock.base (stc : Nat) : Clock :=
  ⟨stc * 2 ^ 9 % 2 ^ 64⟩

/-- Model of `Clock::with_ext`: `value & !0x1f | ext` (the mask clears only
the five low bits, exactly as in the source). -/
def Clock.withExt (c : Clock) (ext : Nat) : Clock :=
  ⟨(c.value &&& (2 ^ 64 - 1 - 0x1f)) ||| ext⟩

/-- Model of `Clock::as_seconds`: `((value >> 9) + (value & 0x1F) / 300) / 90000`,
computed exactly over `ℚ` instead of `f64`. -/
def Clock.asSeconds (c : Clock) : ℚ :=
  (((c.value / 2 ^ 9 : Nat) : ℚ) + ((c.value &&& 0x1f : Nat) : ℚ) / 300) / 90000

/-- Model of the `clock` parser: marker `1` after each of the 3 + 15 + 15
bit chunks of the clock base, 36 bits in total. -/
def clockParse (p : BitPos) : Option (Clock × BitPos) :=
  match takeBits 3 p with
  | none => none
  | some (hi, p1) =>
    match tagBits 1 1 p1 with
    | none => none
    | some p2 =>
      match takeBits 15 p2 with
      | none => none
      | some (mid, p3) =>
        match tagBits 1 1 p3 with
        | none => none
        | some p4 =>
          match takeBits 15 p4 with
          | none => none
          | some (lo, p5) =>
            match tagBits 1 1 p5 with
            | none => none
            | some p6 => some (Clock.base ((hi <<< 30) ||| (mid <<< 15) ||| lo), p6)

/-- Model of `clock_and_ext`: the 36-bit clock, a 9-bit extension, and a
final marker bit, 46 bits in total. -/
def clockAndExt (p : BitPos) : Option (Clock × BitPos) :=
  match clockParse p with
  | none => none
  | some (c, p1) =>
    match takeBits 9 p1 with
    | none => none
    | some (ext, p2) =>
      match tagBits 1 1 p2 with
      | none => none
      | some p3 => some (c.withExt ext, p3)

/-! ### Areas and sizes (`content/area.rs`, `content/size.rs`) -/

/-- Dimensions of an image, `Size { w, h }`. -/
structure Size where
  w : Nat
  h : Nat
  deriving DecidableEq, Repr

/-- Raw rectangle coordinates, `AreaValues { x1, y1, x2, y2 }` (u16 fields,
modelled as `Nat`; the parser produces 12-bit values). -/
structure AreaValues where
  x1 : Nat
  y1 : Nat
  x2 : Nat
  y2 : Nat
  deriving DecidableEq, Repr

/-- Errors of the `content` module. -/
inductive ContentError where
  | invalidAreaBounding
  deriving DecidableEq, Repr

/-- A validated rectangle, `Area(AreaValues)`. -/
structure Area where
  vals : AreaValues
  deriving DecidableEq, Repr

/-- Model of `Area::try_from`: reject when `x2 <= x1 || y2 <= y1`. -/
def Area.tryFrom (c : AreaValues) : Except ContentError Area :=
  if c.x2 ≤ c.x1 ∨ c.y2 ≤ c.y1 then .error .invalidAreaBounding else .ok ⟨c⟩

/-- Model of `Area::width`: `x2 + 1 - x1`. -/
def Area.width (a : Area) : Nat := a.vals.x2 + 1 - a.vals.x1

/-- Model of `Area::height`: `y2 + 1 - y1`. -/
def Area.height (a : Area) : Nat := a.vals.y2 + 1 - a.vals.y1

/-- Model of `Area::size`. -/
def Area.size (a : Area) : Size := ⟨a.width, a.height⟩

/-! ### VobSub RLE decoder (`vobsub/img.rs`)

`scan_line` decompresses one scan line from a bit cursor into a
fixed-width output slice; `decompress` runs it row by row over the two
interlaced scan-line streams. The loop of `scan_line` is modelled with an
explicit fuel argument bounding the number of iterations; `scanLine`
supplies `width + 1`, which is always sufficient because every iteration
advances `x` by at least one and the loop stops as soon as `x ≥ width`.
-/

/-- Errors of the `vobsub` image module (`img::Error`). -/
inductive ImgError where
  /-- `Error::ToSmallOutput { data_size, output_size }`. -/
  | toSmallOutput (dataSize outputSize : Nat)
  /-- `Error::ScanLineLongerThanWidth { x, width }`. -/
  | scanLineLongerThanWidth (x width : Nat)
  /-- `Error::ScanLineParsing(nom)`; also used for the unreachable
  fuel-exhaustion branch of the loop model. -/
  | scanLineParsing
  deriving DecidableEq, Repr

/-- A run-length encoded value, `Rle { cnt, val }`. -/
structure RleRun where
  cnt : Nat
  val : Nat
  deriving DecidableEq, Repr

/-- Model of the `count` parser: `alt((end_of_line, count4, count3, count2,
count1))` — fourteen zero bits meaning fill-to-end-of-line, else 6/4/2
leading zero bits followed by an 8/6/4-bit count, else a plain 2-bit
count. -/
def rleCount (p : BitPos) : Option (Nat × BitPos) :=
  match tagBits 0 14 p with
  | some p' => some (0, p')
  | none =>
    match (tagBits 0 6 p).bind (takeBits 8) with
    | some r => some r
    | none =>
      match (tagBits 0 4 p).bind (takeBits 6) with
      | some r => some r
      | none =>
        match (tagBits 0 2 p).bind (takeBits 4) with
        | some r => some r
        | none => takeBits 2 p

/-- Model of the `rle` parser: a count followed by a 2-bit pixel value. -/
def rleParse (p : BitPos) : Option (RleRun × BitPos) :=
  match rleCount p with
  | none => none
  | some (cnt, p') =>
    match takeBits 2 p' with
    | none => none
    | some (v, p'') => some (⟨cnt, v⟩, p'')

/-- Model of `output[x..x + cnt].fill(v)`. -/
def setRange (out : List Nat) (x cnt v : Nat) : List Nat :=
  out.take x ++ List.replicate cnt v ++ out.drop (x + cnt)

/-- The effective run length of one parsed run: count 0 means
fill-to-end-of-line, `width - x` pixels. -/
def runCount (width x : Nat) (run : RleRun) : Nat :=
  if run.cnt = 0 then width - x else run.cnt

/-- The loop of `scan_line`: while `x < width`, parse a run, fail with
`ToSmallOutput` if the run would overrun the output, else fill and
advance. After the loop, the source checks `x > width` and would fail
with `ScanLineLongerThanWidth`. -/
def scanLineGo (width : Nat) : Nat → BitPos → List Nat → Nat →
    Except ImgError (List Nat × BitPos)
  | 0, _, _, _ => .error .scanLineParsing
  | fuel + 1, pos, out, x =>
    if x < width then
      match rleParse pos with
      | none => .error .scanLineParsing
      | some (run, pos') =>
        if x + runCount width x run > out.length then
          .error (.toSmallOutput (x + runCount width x run) out.length)
        else
          scanLineGo width fuel pos' (setRange out x (runCount width x run) run.val)
            (x + runCount width x run)
    else if x > width then .error (.scanLineLongerThanWidth x width)
    else .ok (out, pos)

/-- Model of `scan_line`: run the loop, then round the cursor up to the
next byte boundary and report the number of input bytes consumed. -/
def scanLine (input : List Nat) (output : List Nat) :
    Except ImgError (List Nat × Nat) :=
  match scanLineGo output.length (output.length + 1) ⟨input, 0⟩ output 0 with
  | .error e => .error e
  | .ok (out, pos) =>
    let pos' : BitPos := if pos.off > 0 then ⟨pos.bytes.drop 1, 0⟩ else pos
    .ok (out, input.length - pos'.bytes.length)

/-- The row loop of `decompress`: even rows consume stream 0, odd rows
stream 1, each starting at its running byte offset; rows are concatenated
in order. The first numeric argument counts the remaining rows, so that
`y < h` exactly while it is positive. -/
def decompressRows (data0 data1 : List Nat) (w : Nat) :
    Nat → Nat → Nat → Nat → Except ImgError (List Nat)
  | 0, _, _, _ => .ok []
  | rem + 1, y, off0, off1 =>
    let odd := y % 2
    let stream := if odd = 0 then data0 else data1
    let off := if odd = 0 then off0 else off1
    match scanLine (stream.drop off) (List.replicate w 0) with
    | .error e => .error e
    | .ok (row, consumed) =>
      match decompressRows data0 data1 w rem (y + 1)
          (if odd = 0 then off0 + consumed else off0)
          (if odd = 0 then off1 else off1 + consumed) with
      | .error e => .error e
      | .ok rest => .ok (row ++ rest)

/-- Model of `decompress`: decode `size.h` scan lines of width `size.w`
from the two scan-line streams. -/
def decompress (size : Size) (data0 data1 : List Nat) :
    Except ImgError (List Nat) :=
  decompressRows data0 data1 size.w size.h 0 0 0

/-! ### VobSub control interpretation (`vobsub/sub.rs`)

The command loop of the `subtitle` function walks the control sequences
and accumulates timing, palette, alpha, area and RLE offsets, then the
tail of `subtitle` checks for missing parts and decompresses the image.
The modelling starts at the `ControlCommand` level; each walked control
sequence contributes its `date` (converted to `base_time + date / 100`
seconds) and its command list.
-/

/-- Individual commands in a control sequence (`ControlCommand`). -/
inductive ControlCommand where
  | force
  | startDate
  | stopDate
  | palette (p : List Nat)
  | alpha (a : List Nat)
  | coordinates (c : AreaValues)
  | rleOffsets (first second : Nat)
  | unsupported
  deriving DecidableEq, Repr

/-- Model of `Option::or`: keep the first `some`. -/
def optOr {α : Type} (a b : Option α) : Option α :=
  match a with
  | some x => some x
  | none => b

/-- The mutable accumulator of the `subtitle` function: `start_time`,
`end_time`, `force`, `area`, `palette`, `alpha`, `rle_offsets`. -/
structure SubAccum where
  startTime : Option ℚ
  endTime : Option ℚ
  force : Bool
  area : Option Area
  palette : Option (List Nat)
  alpha : Option (List Nat)
  rleOffsets : Option (Nat × Nat)
  deriving DecidableEq, Repr

/-- The initial accumulator: everything missing, `force` false. -/
def initAccum : SubAccum := ⟨none, none, false, none, none, none, none⟩

/-- Model of the `match command` arm in the control loop: or-assign for
start, stop, palette, alpha and area (the area is validated by
`Area::try_from` first, and a failure aborts with `?`), plain assignment
for the RLE offsets, sticky set for force. -/
def processCommand (time : ℚ) (acc : SubAccum) :
    ControlCommand → Except ContentError SubAccum
  | .force => .ok { acc with force := true }
  | .startDate => .ok { acc with startTime := optOr acc.startTime (some time) }
  | .stopDate => .ok { acc with endTime := optOr acc.endTime (some time) }
  | .palette p => .ok { acc with palette := optOr acc.palette (some p) }
  | .alpha a => .ok { acc with alpha := optOr acc.alpha (some a) }
  | .coordinates c =>
    match Area.tryFrom c with
    | .error e => .error e
    | .ok ar => .ok { acc with area := optOr acc.area (some ar) }
  | .rleOffsets o1 o2 => .ok { acc with rleOffsets := some (o1, o2) }
  | .unsupported => .ok acc

/-- Process the commands of one control sequence in order. -/
def processCommands (time : ℚ) (acc : SubAccum) :
    List ControlCommand → Except ContentError SubAccum
  | [] => .ok acc
  | c :: rest =>
    match processCommand time acc c with
    | .error e => .error e
    | .ok acc' => processCommands time acc' rest

/-- One walked control sequence: its 16-bit `date` (centiseconds after the
packet PTS) and its commands. -/
structure ControlSequenceData where
  date : Nat
  commands : List ControlCommand
  deriving DecidableEq, Repr

/-- The time attributed to a control sequence:
`base_time + f64::from(control.date) / 100.0`. -/
def seqTime (baseTime : ℚ) (s : ControlSequenceData) : ℚ :=
  baseTime + (s.date : ℚ) / 100

/-- Process a list of walked control sequences in order. -/
def processSequences (baseTime : ℚ) (acc : SubAccum) :
    List ControlSequenceData → Except ContentError SubAccum
  | [] => .ok acc
  | s :: rest =>
    match processCommands (seqTime baseTime s) acc s.commands with
    | .error e => .error e
    | .ok acc' => processSequences baseTime acc' rest

/-- The full accumulation pass of `subtitle` over the walked control
sequences, starting from the empty accumulator. -/
def interpretSequences (baseTime : ℚ) (seqs : List ControlSequenceData) :
    Except ContentError SubAccum :=
  processSequences baseTime initAccum seqs

/-- Proof-support definition: the same accumulation, expressed over the
flattened list of (time, command) pairs. -/
def processTimed (acc : SubAccum) :
    List (ℚ × ControlCommand) → Except ContentError SubAccum
  | [] => .ok acc
  | tc :: rest =>
    match processCommand tc.1 acc tc.2 with
    | .error e => .error e
    | .ok acc' => processTimed acc' rest

/-- The flattened walk: every command of every walked control sequence,
paired with its sequence's time, in walk order. -/
def timedCommands (baseTime : ℚ) (seqs : List ControlSequenceData) :
    List (ℚ × ControlCommand) :=
  (seqs.map (fun s => s.commands.map (fun c => (seqTime baseTime s, c)))).flatten

/-- The time of the first `StartDate` occurrence of the walk. -/
def firstStartOcc (l : List (ℚ × ControlCommand)) : Option ℚ :=
  (l.filterMap fun tc =>
    match tc.2 with
    | .startDate => some tc.1
    | _ => none).head?

/-- The time of the first `StopDate` occurrence of the walk. -/
def firstStopOcc (l : List (ℚ × ControlCommand)) : Option ℚ :=
  (l.filterMap fun tc =>
    match tc.2 with
    | .stopDate => some tc.1
    | _ => none).head?

/-- The payload of the first `Palette` occurrence of the walk. -/
def firstPaletteOcc (l : List (ℚ × ControlCommand)) : Option (List Nat) :=
  (l.filterMap fun tc =>
    match tc.2 with
    | .palette p => some p
    | _ => none).head?

/-- The payload of the first `Alpha` occurrence of the walk. -/
def firstAlphaOcc (l : List (ℚ × ControlCommand)) : Option (List Nat) :=
  (l.filterMap fun tc =>
    match tc.2 with
    | .alpha a => some a
    | _ => none).head?

/-- The payload of the first `Coordinates` occurrence of the walk. -/
def firstCoordsOcc (l : List (ℚ × ControlCommand)) : Option AreaValues :=
  (l.filterMap fun tc =>
    match tc.2 with
    | .coordinates c => some c
    | _ => none).head?

/-- The payload of the last `RleOffsets` occurrence of the walk. -/
def lastRleOcc (l : List (ℚ × ControlCommand)) : Option (Nat × Nat) :=
  (l.filterMap fun tc =>
    match tc.2 with
    | .rleOffsets o1 o2 => some (o1, o2)
    | _ => none).getLast?

/-- Whether any `Force` command occurs in the walk. -/
def anyForceOcc (l : List (ℚ × ControlCommand)) : Bool :=
  l.any fun tc => tc.2 = ControlCommand.force

/-- The successfully validated area of a coordinates payload, if any. -/
def areaOfCoords (c : AreaValues) : Option Area :=
  match Area.tryFrom c with
  | .ok a => some a
  | .error _ => none

/-! ### VobSub subtitle emission (`vobsub/sub.rs`, tail of `subtitle`,
and `Subtitle::to_image`) -/

/-- A parsed subtitle (`Subtitle`), times in seconds. -/
structure Subtitle where
  startTime : ℚ
  endTime : Option ℚ
  force : Bool
  area : Area
  palette : List Nat
  alpha : List Nat
  rawImage : List Nat
  deriving DecidableEq, Repr

/-- The `vobsub` errors reachable from the modelled code paths. -/
inductive VobSubError where
  | unexpectedEndOfSubtitleData
  | bufferTooSmallForU16
  | controlOffsetBiggerThanPacket (offset packet : Nat)
  | controlOffsetWentBackwards
  | missingStartTime
  | missingArea
  | missingPalette
  | missingAlphaPalette
  | missingRleOffset
  | invalidScanLineOffsets (start0 start1 endOffset : Nat)
  | invalidAreaBounding
  | img (e : ImgError)
  deriving DecidableEq, Repr

/-- The tail of the `subtitle` function: check every accumulated part for
presence (each missing part has its own error), validate the scan-line
offsets against `end = initial_control_offset + 2`, decompress the two
scan-line streams `raw_data[start_i..end]`, and build the `Subtitle`
value with the palette and alpha quads exactly as accumulated. -/
def finishSubtitle (rawData : List Nat) (initialControlOffset : Nat)
    (acc : SubAccum) : Except VobSubError Subtitle :=
  match acc.startTime with
  | none => .error .missingStartTime
  | some startTime =>
    match acc.area with
    | none => .error .missingArea
    | some area =>
      match acc.palette with
      | none => .error .missingPalette
      | some palette =>
        match acc.alpha with
        | none => .error .missingAlphaPalette
        | some alpha =>
          match acc.rleOffsets with
          | none => .error .missingRleOffset
          | some rle =>
            if rle.1 > rle.2 ∨ rle.2 > initialControlOffset + 2 then
              .error (.invalidScanLineOffsets rle.1 rle.2 (initialControlOffset + 2))
            else
              match decompress area.size
                  ((rawData.drop rle.1).take (initialControlOffset + 2 - rle.1))
                  ((rawData.drop rle.2).take (initialControlOffset + 2 - rle.2)) with
              | .error e => .error (.img e)
              | .ok image =>
                .ok ⟨startTime, acc.endTime, acc.force, area, palette, alpha, image⟩

/-- An RGB palette entry of the 16-colour index-file palette. -/
structure Rgb where
  r : Nat
  g : Nat
  b : Nat
  deriving DecidableEq, Repr

/-- An RGBA output pixel. -/
structure Rgba where
  r : Nat
  g : Nat
  b : Nat
  a : Nat
  deriving DecidableEq, Repr

/-- One pixel of `Subtitle::to_image`: `px = 3 - raw_image[y * width + x]`
(the raw values are at most 3 for decompressed images, see
`claim_c2`), `rgb = palette[self.palette[px]]`, `a = self.alpha[px]`,
`aa = a << 4 | a` in `u8` arithmetic. Out-of-range indexing, which would
panic in Rust, is modelled by `getD` defaults. -/
def Subtitle.toImagePixel (sub : Subtitle) (pal : List Rgb) (x y : Nat) : Rgba :=
  let width := sub.area.width
  let offset := y * width + x
  let px := 3 - sub.rawImage.getD offset 0
  let rgb := pal.getD (sub.palette.getD px 0) ⟨0, 0, 0⟩
  let a := sub.alpha.getD px 0
  ⟨rgb.r, rgb.g, rgb.b, (a * 16 % 256) ||| a⟩

/-- Specification-side helper: the output pixel obtained by indexing the
subtitle's palette and alpha quads directly with a given 2-bit index. -/
def quadPixel (sub : Subtitle) (pal : List Rgb) (px : Nat) : Rgba :=
  ⟨(pal.getD (sub.palette.getD px 0) ⟨0, 0, 0⟩).r,
    (pal.getD (sub.palette.getD px 0) ⟨0, 0, 0⟩).g,
    (pal.getD (sub.palette.getD px 0) ⟨0, 0, 0⟩).b,
    (sub.alpha.getD px 0 * 16 % 256) ||| sub.alpha.getD px 0⟩

/-! ### VobSub end-time back-fill (`vobsub/sub.rs`, `Subtitles::next`)

The public iterator keeps a one-subtitle lookahead buffer. When the
buffered subtitle has no end time and a following subtitle exists, the
end becomes `min(next.start - 0.001, start + 5.0)`; when it is the last
subtitle, the end becomes `start + 5.0`. Over the stream of successfully
parsed subtitles this is the following list transformation.
-/

/-- The constant `DEFAULT_SUBTITLE_SPACING = 0.001` seconds. -/
def defaultSubtitleSpacing : ℚ := 1 / 1000

/-- The constant `DEFAULT_SUBTITLE_LENGTH = 5.0` seconds. -/
def defaultSubtitleLength : ℚ := 5

/-- Back-fill of a buffered subtitle when a following subtitle exists:
`new_end = curr.start_time - DEFAULT_SUBTITLE_SPACING`,
`alt_end = prev.start_time + DEFAULT_SUBTITLE_LENGTH`,
`prev.end_time = Some(new_end.min(alt_end))` if the end was missing. -/
def fillEndWithNext (prev curr : Subtitle) : Subtitle :=
  match prev.endTime with
  | some _ => prev
  | none =>
    { prev with
      endTime := some (min (curr.startTime - defaultSubtitleSpacing)
        (prev.startTime + defaultSubtitleLength)) }

/-- Back-fill of the last subtitle:
`end_time = Some(start_time + DEFAULT_SUBTITLE_LENGTH)` if missing. -/
def fillEndLast (sub : Subtitle) : Subtitle :=
  match sub.endTime with
  | some _ => sub
  | none => { sub with endTime := some (sub.startTime + defaultSubtitleLength) }

/-- The back-fill pass of the `Subtitles` iterator over the list of
subtitles produced by the internal iterator. -/
def backfill : List Subtitle → List Subtitle
  | [] => []
  | [s] => [fillEndLast s]
  | s :: t :: rest => fillEndWithNext s t :: backfill (t :: rest)

/-! ### PGS time model (`time/time_point.rs`, `time/time_span.rs`) -/

/-- A time in milliseconds (`TimePoint(i64)`). -/
structure TimePoint where
  msecs : Int
  deriving DecidableEq, Repr

/-- A time span (`TimeSpan { start, end }`); no ordering invariant is
enforced by the constructor. -/
structure TimeSpan where
  start : TimePoint
  endTime : TimePoint
  deriving DecidableEq, Repr

/-! ### PGS segments and decoders (`pgs/segment.rs`, `pgs/decoder.rs`)

The decoders are modelled at the granularity of a list of well-formed
segments: each carries the header fields (`pts`, type code, declared
size) and its body bytes. Byte-level header reading, magic checking and
`skip_segment` happen below this granularity; streams they reject never
reach the decoder loops, which is the level both decoder claims speak
about.
-/

/-- The five accepted segment type codes. -/
inductive SegmentTypeCode where
  | pds
  | ods
  | pcs
  | wds
  | endCode
  deriving DecidableEq, Repr

/-- One parsed segment: header fields plus body bytes. -/
structure RawSegment where
  pts : Nat
  typeCode : SegmentTypeCode
  size : Nat
  body : List Nat
  deriving DecidableEq, Repr

/-- Model of `SegmentHeader::presentation_time`: `pts / 90` milliseconds. -/
def presentationTime (s : RawSegment) : Nat := s.pts / 90

/-- The loop of `DecodeTimeOnly::parse_next`: the first END segment records
the start time, the second emits `TimeSpan(start, end)` and stops the
loop; every other segment type is skipped. -/
def timeOnlyGo (startTime : Option TimePoint) : List RawSegment → Option TimeSpan
  | [] => none
  | seg :: rest =>
    match seg.typeCode with
    | .endCode =>
      match startTime with
      | some t0 => some ⟨t0, ⟨(presentationTime seg : Int)⟩⟩
      | none => timeOnlyGo (some ⟨(presentationTime seg : Int)⟩) rest
    | _ => timeOnlyGo startTime rest

/-- Model of `DecodeTimeOnly::parse_next` over a list of parsed segments. -/
def parseNextTimeOnly (segs : List RawSegment) : Option TimeSpan :=
  timeOnlyGo none segs

/-- The presentation times (in 90 kHz pts units) of the END segments of a
stream, in order. -/
def endSegPts (segs : List RawSegment) : List Nat :=
  (segs.filter fun s => s.typeCode = SegmentTypeCode.endCode).map (·.pts)

/-! ### PGS palette definition segments (`pgs/pds.rs`) -/

/-- A palette entry `(entry_id, Y, Cr, Cb, alpha)`. -/
structure PaletteEntry where
  id : Nat
  y : Nat
  cr : Nat
  cb : Nat
  alpha : Nat
  deriving DecidableEq, Repr

/-- A parsed palette: the entry vector and the `i16` lookup offset. -/
structure Palette where
  entries : List PaletteEntry
  offset : Int
  deriving DecidableEq, Repr

/-- Model of `compute_offset`: zero for an empty palette, else the negated
id of the first entry. -/
def computeOffset (entries : List PaletteEntry) : Int :=
  match entries with
  | [] => 0
  | e :: _ => 0 - (e.id : Int)

/-- Model of `Palette::new`. -/
def paletteNew (entries : List PaletteEntry) : Palette :=
  ⟨entries, computeOffset entries⟩

/-- Model of the Rust cast `idx as usize` applied to an `i16` (sign
extension to 64 bits, then reinterpretation): the value modulo `2 ^ 64`. -/
def usizeOfI16 (i : Int) : Nat :=
  (i % 2 ^ 64).toNat

/-- Model of `Palette::get`: `entries.get((i16::from(id) + offset) as usize)`.
The `i16` addition cannot overflow for parsed palettes (`id` and the first
entry id are bytes), so it is modelled over `Int` directly. -/
def Palette.get (p : Palette) (id : Nat) : Option PaletteEntry :=
  p.entries.get? (usizeOfI16 ((id : Int) + p.offset))

/-- The flat PGS error kinds reachable from the modelled code paths. -/
inductive PgsError where
  | lastInSequenceFlagReadData
  | lastInSequenceFlagInvalidValue (value : Nat)
  | lastInSequenceFlagNotManaged (flagByte : Nat)
  | skipObjectIdAndVerNum
  | readObjectDataLength
  | readWidth
  | readHeight
  | objectData (buffSize : Nat)
  | pdsBufferParse
  | missingPalette
  deriving DecidableEq, Repr

/-- Outcome of `pds::read`: a palette, an error, or a Rust panic. -/
inductive PdsOutcome where
  | ok (palette : Palette)
  | err (e : PgsError)
  | panic
  deriving DecidableEq, Repr

/-- Model of `pds::read` over the remaining stream bytes `body`:
read `segments_size` bytes (error on EOF), index bytes 0 and 1 and
subtract 2 (a panic when fewer than 2 bytes were declared), require
`(size - 2)` to be a multiple of 5 (`assert_eq!`, panic otherwise), and
collect the 5-byte entries. -/
def pdsRead (segSize : Nat) (body : List Nat) : PdsOutcome :=
  if body.length < segSize then .err .pdsBufferParse
  else if segSize < 2 then .panic
  else if (segSize - 2) / 5 * 5 + 2 ≠ segSize then .panic
  else
    .ok (paletteNew ((List.range ((segSize - 2) / 5)).map fun idx =>
      ⟨(body.take segSize).getD (2 + idx * 5) 0,
        (body.take segSize).getD (2 + idx * 5 + 1) 0,
        (body.take segSize).getD (2 + idx * 5 + 2) 0,
        (body.take segSize).getD (2 + idx * 5 + 3) 0,
        (body.take segSize).getD (2 + idx * 5 + 4) 0⟩))

/-! ### PGS object definition segments (`pgs/ods.rs`) -/

/-- The `last_in_sequence_flag` values `0x40`, `0x80`, `0xC0`. -/
inductive LastInSequenceFlag where
  | last
  | first
  | firstAndLast
  deriving DecidableEq, Repr

/-- Model of `LastInSequenceFlag::try_from`. -/
def flagOfByte (b : Nat) : Option LastInSequenceFlag :=
  if b = 0x40 then some .last
  else if b = 0x80 then some .first
  else if b = 0xC0 then some .firstAndLast
  else none

/-- The payload of an object definition: width, height and object bytes. -/
structure OdsData where
  width : Nat
  height : Nat
  objectData : List Nat
  deriving DecidableEq, Repr

/-- The `ObjectDefinitionSegment::Partial` state retained between a First
fragment and its Last fragment: the pre-allocated data plus the number of
bytes already read. -/
structure OdsPending where
  data : OdsData
  amountRead : Nat
  deriving DecidableEq, Repr

/-- Outcome of `ods::read`: a complete object, a retained fragment state,
an error, or a Rust panic. -/
inductive OdsOutcome where
  | complete (d : OdsData)
  | pending (p : OdsPending)
  | err (e : PgsError)
  | panic
  deriving DecidableEq, Repr

/-- Model of `ods::read` over the remaining stream bytes `body`.
It skips the 2-byte object id and 1-byte version, reads and validates the
`last_in_sequence_flag` byte, then branches on the retained state:

With no retained state the source first runs
`assert!(flag == First || flag == FirstAndLast)` — a panic for any other
flag; the `else` branch returning `LastInSequenceFlagNotManaged` below it
is dead code. It then reads the 24-bit object data length, width and
height, subtracts 4 from the length (`usize` underflow panics), reads
`segments_size - 11` bytes (underflow panics; a slice out of the allocated
buffer panics), and for FirstAndLast asserts that exactly the whole
buffer was filled.

With a retained Partial state the source runs `assert!(flag == Last)`
(panic otherwise) and copies `segments_size - 4` further bytes into the
buffer at the recorded position (underflow or slice overrun panics). -/
def odsRead (segSize : Nat) (body : List Nat) (cur : Option OdsPending) :
    OdsOutcome :=
  if body.length < 3 then .err .skipObjectIdAndVerNum
  else
    match (body.drop 3).head? with
    | none => .err .lastInSequenceFlagReadData
    | some fb =>
      match flagOfByte fb with
      | none => .err (.lastInSequenceFlagInvalidValue fb)
      | some flag =>
        match cur with
        | none =>
          if ¬(flag = .first ∨ flag = .firstAndLast) then .panic
          else
            let rest := body.drop 4
            if rest.length < 3 then .err .readObjectDataLength
            else
              let dataLenRaw :=
                rest.getD 0 0 * 65536 + rest.getD 1 0 * 256 + rest.getD 2 0
              if (rest.drop 3).length < 2 then .err .readWidth
              else
                let width := rest.getD 3 0 * 256 + rest.getD 4 0
                if (rest.drop 5).length < 2 then .err .readHeight
                else
                  let height := rest.getD 5 0 * 256 + rest.getD 6 0
                  if dataLenRaw < 4 then .panic
                  else
                    let dataSize := dataLenRaw - 4
                    if segSize < 11 then .panic
                    else
                      let readDataSize := segSize - 11
                      if readDataSize > dataSize then .panic
                      else
                        let objBytes := rest.drop 7
                        if objBytes.length < readDataSize then
                          .err (.objectData readDataSize)
                        else
                          let objectData := objBytes.take readDataSize ++
                            List.replicate (dataSize - readDataSize) 0
                          if flag = .firstAndLast then
                            if readDataSize ≠ dataSize then .panic
                            else if segSize ≠ 11 + dataSize then .panic
                            else .complete ⟨width, height, objectData⟩
                          else if flag = .first then
                            .pending ⟨⟨width, height, objectData⟩, readDataSize⟩
                          else .err (.lastInSequenceFlagNotManaged fb)
        | some p =>
          if flag ≠ .last then .panic
          else
            let startIdx := p.amountRead
            if segSize < 4 then .panic
            else
              let endIdx := startIdx + (segSize - 4)
              if endIdx > p.data.objectData.length then .panic
              else
                let objBytes := body.drop 4
                if objBytes.length < segSize - 4 then .err (.objectData (segSize - 4))
                else
                  .complete ⟨p.data.width, p.data.height,
                    p.data.objectData.take startIdx ++ objBytes.take (segSize - 4) ++
                      p.data.objectData.drop endIdx⟩

/-! ### PGS time-and-image decoder (`pgs/decoder.rs`, `DecodeTimeImage`) -/

/-- The `RleEncodedImage` handed to the consumer: dimensions, the palette
moved into it, and the raw RLE bytes. -/
structure RleEncodedImage where
  width : Nat
  height : Nat
  palette : Palette
  rawData : List Nat
  deriving DecidableEq, Repr

/-- The local state of `DecodeTimeImage::parse_next`: `start_time`,
`palette`, `image`, `prev_ods`. -/
structure TiState where
  startTime : Option TimePoint
  palette : Option Palette
  image : Option RleEncodedImage
  prevOds : Option OdsPending
  deriving DecidableEq, Repr

/-- Result of one `parse_next` call: an optional emitted subtitle together
with the local state at return, an error, or a Rust panic. -/
inductive TiResult where
  | ok (out : Option (TimeSpan × RleEncodedImage)) (st : TiState)
  | err (e : PgsError)
  | panic
  deriving DecidableEq, Repr

/-- The function tail after the segment loop:
`assert!(palette.is_none()); assert!(prev_ods.is_none()); Ok(subtitle)` —
each failed assertion is a panic. -/
def tiFinish (sub : Option (TimeSpan × RleEncodedImage)) (st : TiState) : TiResult :=
  if st.palette.isSome then .panic
  else if st.prevOds.isSome then .panic
  else .ok sub st

/-- The segment loop of `DecodeTimeImage::parse_next`: PDS replaces the
retained palette; ODS feeds `ods::read` with `prev_ods.take()` — on a
complete object the palette is taken (`MissingPalette` if absent) and
moved into a fresh `RleEncodedImage`, on a partial object the state is
retained; the first END records the start time and the second builds the
output, either from the taken image or, failing that, from the taken
palette as an empty 0 × 0 image, and stops the loop; PCS and WDS are
skipped. -/
def timeImageGo (st : TiState) : List RawSegment → TiResult
  | [] => tiFinish none st
  | seg :: rest =>
    match seg.typeCode with
    | .pds =>
      match pdsRead seg.size seg.body with
      | .panic => .panic
      | .err e => .err e
      | .ok pal => timeImageGo { st with palette := some pal } rest
    | .ods =>
      match odsRead seg.size seg.body st.prevOds with
      | .panic => .panic
      | .err e => .err e
      | .complete d =>
        match st.palette with
        | none => .err .missingPalette
        | some pal =>
          timeImageGo ⟨st.startTime, none,
            some ⟨d.width, d.height, pal, d.objectData⟩, none⟩ rest
      | .pending p => timeImageGo { st with prevOds := some p } rest
    | .endCode =>
      match st.startTime with
      | none => timeImageGo { st with startTime := some ⟨(presentationTime seg : Int)⟩ } rest
      | some t0 =>
        match st.image with
        | some img =>
          tiFinish (some (⟨t0, ⟨(presentationTime seg : Int)⟩⟩, img))
            { st with image := none }
        | none =>
          match st.palette with
          | none => .err .missingPalette
          | some pal =>
            tiFinish (some (⟨t0, ⟨(presentationTime seg : Int)⟩⟩, ⟨0, 0, pal, []⟩))
              { st with palette := none, image := none }
    | .pcs => timeImageGo st rest
    | .wds => timeImageGo st rest

/-- Model of `DecodeTimeImage::parse_next` over a list of parsed segments,
starting from the all-`None` local state. -/
def parseNextTimeImage (segs : List RawSegment) : TiResult :=
  timeImageGo ⟨none, none, none, none⟩ segs

end Subtile

namespace Subtile

/-! ## Theorems -/

/-! ### Bit cursor facts -/

theorem takeBit_lt {p : BitPos} {bit : Nat} {p' : BitPos}
    (h : takeBit p = some (bit, p')) : bit < 2 := by
  unfold takeBit at h
  cases hb : p.bytes with
  | nil => simp [hb] at h
  | cons b rest =>
    simp only [hb] at h
    split at h <;> simp only [Option.some.injEq, Prod.mk.injEq] at h <;>
      exact h.1 ▸ Nat.mod_lt _ (by norm_num)

theorem takeBitsAux_lt :
    ∀ (n acc : Nat) (p : BitPos) (v : Nat) (p' : BitPos),
      takeBitsAux n acc p = some (v, p') → v < (acc + 1) * 2 ^ n := by
  intro n
  induction n with
  | zero =>
    intro acc p v p' h
    simp only [takeBitsAux, Option.some.injEq, Prod.mk.injEq] at h
    simp only [h.1.symm, pow_zero, mul_one]
    exact Nat.lt_succ_self acc
  | succ n ih =>
    intro acc p v p' h
    simp only [takeBitsAux] at h
    cases hb : takeBit p with
    | none => simp [hb] at h
    | some r =>
      obtain ⟨bit, p1⟩ := r
      rw [hb] at h
      have hbit : bit < 2 := takeBit_lt hb
      have := ih (acc * 2 + bit) p1 v p' h
      calc v < (acc * 2 + bit + 1) * 2 ^ n := this
        _ ≤ (acc * 2 + 2) * 2 ^ n := by
            have : acc * 2 + bit + 1 ≤ acc * 2 + 2 := by omega
            exact Nat.mul_le_mul_right _ this
        _ = (acc + 1) * 2 ^ (n + 1) := by ring

theorem takeBits_lt {n : Nat} {p : BitPos} {v : Nat} {p' : BitPos}
    (h : takeBits n p = some (v, p')) : v < 2 ^ n := by
  have := takeBitsAux_lt n 0 p v p' h
  simpa using this

/-! ### Clock facts -/

theorem base_withExt_value {b e : Nat} (hb : b < 2 ^ 33) (he : e < 2 ^ 9) :
    (Clock.base b).withExt e = ⟨b * 2 ^ 9 + e⟩ := by
  have hlt : b * 2 ^ 9 < 2 ^ 64 := by
    calc b * 2 ^ 9 < 2 ^ 33 * 2 ^ 9 := mul_lt_mul_of_pos_right hb (by norm_num)
      _ ≤ 2 ^ 64 := by norm_num
  have h1 : b * 2 ^ 9 % 2 ^ 64 = b * 2 ^ 9 := Nat.mod_eq_of_lt hlt
  have hmask : b * 2 ^ 9 &&& (2 ^ 64 - 1 - 0x1f) = b * 2 ^ 9 := by
    have h2 : (2 : Nat) ^ 64 - 1 - 0x1f = 2 ^ 5 * (2 ^ 59 - 1) := by norm_num
    rw [h2]
    apply Nat.eq_of_testBit_eq
    intro i
    rw [Nat.testBit_and]
    by_cases hbi : (b * 2 ^ 9).testBit i
    · have h9 : 9 ≤ i ∧ b.testBit (i - 9) = true := by
        rw [Nat.mul_comm, Nat.testBit_mul_pow_two] at hbi
        simpa using hbi
      have hge' : b ≥ 2 ^ (i - 9) := Nat.testBit_implies_ge h9.2
      have hi : i < 42 := by
        by_contra hcon
        have : 2 ^ 33 ≤ 2 ^ (i - 9) := Nat.pow_le_pow_right (by norm_num) (by omega)
        omega
      have hm : ((2 : Nat) ^ 5 * (2 ^ 59 - 1)).testBit i = true := by
        rw [Nat.testBit_mul_pow_two]
        simp only [Nat.testBit_two_pow_sub_one]
        have : 5 ≤ i := by omega
        simp [this]
        omega
      rw [hbi, hm]
      rfl
    · simp only [Bool.not_eq_true] at hbi
      rw [hbi]
      simp
  have hor : b * 2 ^ 9 ||| e = b * 2 ^ 9 + e := by
    have := Nat.mul_add_lt_is_or he b
    rw [Nat.mul_comm] at this
    omega
  simp only [Clock.base, Clock.withExt, h1, hmask, hor]

theorem asSeconds_base_withExt {b e : Nat} (hb : b < 2 ^ 33) (he : e < 2 ^ 9) :
    ((Clock.base b).withExt e).asSeconds =
      ((b : ℚ) + ((e % 32 : Nat) : ℚ) / 300) / 90000 := by
  rw [base_withExt_value hb he]
  unfold Clock.asSeconds
  have h1 : (b * 2 ^ 9 + e) / 2 ^ 9 = b := by omega
  have h2 : (b * 2 ^ 9 + e) &&& 0x1f = e % 32 := by
    have h31 : (0x1f : Nat) = 2 ^ 5 - 1 := by norm_num
    rw [h31, Nat.and_pow_two_sub_one_eq_mod]
    omega
  rw [h1, h2]

/-- Claim C9 is corrected on two points. First, parsing the 33-bit clock
plus 9-bit extension from the bytes `44 02 c4 82 04 a9` at bit offset 2
yields `Clock.base(0x2C1040).with_ext(0x054)` — not base `0x2C10440`; the
corrected constant agrees with the binary literal in the code's own unit
test. Second, for every clock built as `base(b).with_ext(e)` with
`e < 512`, `as_seconds()` returns `(b + (e mod 32)/300) / 90000`: the
implementation masks the extension with `0x1F`, keeping only its five low
bits, although the field is documented as nine bits wide. -/
theorem claim_c9 :
    clockAndExt ⟨[0x44, 0x02, 0xc4, 0x82, 0x04, 0xa9], 2⟩ =
      some ((Clock.base 0x2C1040).withExt 0x54, ⟨[], 0⟩) ∧
    ∀ b e : Nat, b < 2 ^ 33 → e < 2 ^ 9 →
      ((Clock.base b).withExt e).asSeconds =
        ((b : ℚ) + ((e % 32 : Nat) : ℚ) / 300) / 90000 := by
  constructor
  · decide
  · intro b e hb he
    exact asSeconds_base_withExt hb he

/-- Witness for C9: the theorem applied at the parsed clock itself,
`b = 0x2C1040`, `e = 0x54`; since `0x54 = 84 ≥ 32` the five-bit mask
truncates the extension to `84 mod 32 = 20`. -/
theorem claim_c9_witness :
    ((0x2C1040 : Nat) < 2 ^ 33 ∧ (0x54 : Nat) < 2 ^ 9) ∧
      ((Clock.base 0x2C1040).withExt 0x54).asSeconds =
        (((0x2C1040 : Nat) : ℚ) + (((0x54 % 32 : Nat) : Nat) : ℚ) / 300) / 90000 :=
  ⟨⟨by norm_num, by norm_num⟩, claim_c9.2 0x2C1040 0x54 (by norm_num) (by norm_num)⟩

/-- Counterexample for C9 as stated: the parse result differs from
`Clock.base(0x2C10440).with_ext(0x054)`, and `as_seconds` on the actually
parsed clock differs from `(base + ext/300) / 90000` with the full 9-bit
extension `ext = 0x54`. -/
theorem claim_c9_counterexample :
    (clockAndExt ⟨[0x44, 0x02, 0xc4, 0x82, 0x04, 0xa9], 2⟩ ≠
      some ((Clock.base 0x2C10440).withExt 0x54, ⟨[], 0⟩)) ∧
    ((Clock.base 0x2C1040).withExt 0x54).asSeconds ≠
      (((0x2C1040 : Nat) : ℚ) + ((0x54 : Nat) : ℚ) / 300) / 90000 := by
  constructor
  · decide
  · rw [asSeconds_base_withExt (by norm_num) (by norm_num)]
    norm_num

/-! ### VobSub RLE decoder facts -/

theorem rleParse_val_lt {p : BitPos} {run : RleRun} {p' : BitPos}
    (h : rleParse p = some (run, p')) : run.val < 4 := by
  unfold rleParse at h
  split at h
  · exact absurd h (by simp)
  · rename_i cnt p1 hc
    split at h
    · exact absurd h (by simp)
    · rename_i v p2 hv
      simp only [Option.some.injEq, Prod.mk.injEq] at h
      have hlt := takeBits_lt hv
      have hval : run.val = v := by rw [← h.1]
      rw [hval]
      simpa using hlt

theorem setRange_length {out : List Nat} {x cnt v : Nat}
    (h : x + cnt ≤ out.length) :
    (setRange out x cnt v).length = out.length := by
  unfold setRange
  rw [List.length_append, List.length_append, List.length_take,
    List.length_replicate, List.length_drop]
  omega

theorem setRange_mem {out : List Nat} {x cnt v u : Nat}
    (h : u ∈ setRange out x cnt v) : u ∈ out ∨ u = v := by
  unfold setRange at h
  rcases List.mem_append.mp h with h1 | h2
  · rcases List.mem_append.mp h1 with h3 | h4
    · exact .inl (List.take_subset _ _ h3)
    · exact .inr (List.eq_of_mem_replicate h4)
  · exact .inl (List.drop_subset _ _ h2)

theorem scanLineGo_ok_inv {width : Nat} :
    ∀ (fuel : Nat) (pos : BitPos) (out : List Nat) (x : Nat)
      (out' : List Nat) (pos' : BitPos),
      out.length = width → (∀ u ∈ out, u ≤ 3) →
      scanLineGo width fuel pos out x = .ok (out', pos') →
      out'.length = width ∧ ∀ u ∈ out', u ≤ 3 := by
  intro fuel
  induction fuel with
  | zero =>
    intro pos out x out' pos' _ _ h
    exact absurd h (by simp [scanLineGo])
  | succ fuel ih =>
    intro pos out x out' pos' hlen hmem h
    rw [scanLineGo] at h
    split at h
    · split at h
      · exact absurd h (by simp)
      · rename_i run pos2 hp
        split at h
        · exact absurd h (by simp)
        · refine ih pos2 _ _ out' pos' ?_ ?_ h
          · rw [setRange_length (by omega)]; exact hlen
          · intro u hu
            rcases setRange_mem hu with h1 | h2
            · exact hmem u h1
            · have := rleParse_val_lt hp
              omega
    · split at h
      · exact absurd h (by simp)
      · simp only [Except.ok.injEq, Prod.mk.injEq] at h
        rw [← h.1]
        exact ⟨hlen, hmem⟩

theorem scanLineGo_error_kind {width : Nat} :
    ∀ (fuel : Nat) (pos : BitPos) (out : List Nat) (x : Nat) (e : ImgError),
      out.length = width → x ≤ width →
      scanLineGo width fuel pos out x = .error e →
      e = .scanLineParsing ∨ ∃ d s, e = .toSmallOutput d s ∧ s < d := by
  intro fuel
  induction fuel with
  | zero =>
    intro pos out x e _ _ h
    simp only [scanLineGo, Except.error.injEq] at h
    exact .inl h.symm
  | succ fuel ih =>
    intro pos out x e hlen hx h
    rw [scanLineGo] at h
    split at h
    · split at h
      · simp only [Except.error.injEq] at h
        exact .inl h.symm
      · rename_i run pos2 hp
        split at h
        · rename_i hguard
          simp only [Except.error.injEq] at h
          exact .inr ⟨_, _, h.symm, by omega⟩
        · refine ih pos2 _ _ e ?_ ?_ h
          · rw [setRange_length (by omega)]; exact hlen
          · omega
    · split at h
      · omega
      · exact absurd h (by simp)

theorem scanLine_ok_inv (input output : List Nat) {out : List Nat} {c : Nat}
    (hmem : ∀ u ∈ output, u ≤ 3)
    (h : scanLine input output = .ok (out, c)) :
    out.length = output.length ∧ ∀ u ∈ out, u ≤ 3 := by
  unfold scanLine at h
  cases hg : scanLineGo output.length (output.length + 1) ⟨input, 0⟩ output 0 with
  | error e => rw [hg] at h; exact absurd h (by simp)
  | ok r =>
    obtain ⟨out1, pos1⟩ := r
    rw [hg] at h
    simp only [Except.ok.injEq, Prod.mk.injEq] at h
    have := scanLineGo_ok_inv (output.length + 1) ⟨input, 0⟩ output 0 out1 pos1
      rfl hmem hg
    rw [← h.1]
    exact this

theorem decompressRows_ok_inv (data0 data1 : List Nat) (w : Nat) :
    ∀ (rem y off0 off1 : Nat) (img : List Nat),
      decompressRows data0 data1 w rem y off0 off1 = .ok img →
      img.length = rem * w ∧ ∀ v ∈ img, v ≤ 3 := by
  intro rem
  induction rem with
  | zero =>
    intro y off0 off1 img h
    simp only [decompressRows, Except.ok.injEq] at h
    rw [← h]
    simp
  | succ rem ih =>
    intro y off0 off1 img h
    rw [decompressRows] at h
    split at h
    · exact absurd h (by simp)
    · rename_i row consumed hs
      split at h
      · exact absurd h (by simp)
      · rename_i rest hr
        simp only [Except.ok.injEq] at h
        have hrow := scanLine_ok_inv _ (List.replicate w 0)
          (by intro u hu; rw [List.eq_of_mem_replicate hu]; omega) hs
        have hrest := ih (y + 1) _ _ rest hr
        rw [← h]
        constructor
        · rw [List.length_append, hrow.1, List.length_replicate, hrest.1]
          ring
        · intro v hv
          rcases List.mem_append.mp hv with h1 | h2
          · exact hrow.2 v h1
          · exact hrest.2 v h2

/-- Claim C2: every decompressed VobSub pixel buffer for a subtitle area
has length exactly `width * height`, and every byte of it is in `0..=3`
(the buffer starts zero-filled and every RLE run writes a 2-bit value). -/
theorem claim_c2 (a : Area) (data0 data1 : List Nat) (img : List Nat)
    (h : decompress a.size data0 data1 = .ok img) :
    img.length = a.width * a.height ∧ ∀ v ∈ img, v ≤ 3 := by
  have := decompressRows_ok_inv data0 data1 a.size.w a.size.h 0 0 0 img h
  refine ⟨?_, this.2⟩
  rw [this.1]
  show a.height * a.width = a.width * a.height
  ring

/-- Witness for C2: a 2 × 2 area whose two scan-line streams decode to the
all-zero image. -/
theorem claim_c2_witness :
    decompress (Area.size ⟨⟨0, 0, 1, 1⟩⟩) [0x44, 0x99] [0x44] = .ok [0, 0, 0, 0] ∧
      ([0, 0, 0, 0] : List Nat).length =
        Area.width ⟨⟨0, 0, 1, 1⟩⟩ * Area.height ⟨⟨0, 0, 1, 1⟩⟩ ∧
      ∀ v ∈ ([0, 0, 0, 0] : List Nat), v ≤ 3 :=
  ⟨rfl, claim_c2 ⟨⟨0, 0, 1, 1⟩⟩ [0x44, 0x99] [0x44] [0, 0, 0, 0] rfl⟩

/-- Claim C8 is corrected: when a decoded run would overrun the target
line, `scan_line` fails with the `ToSmallOutput` (`OutputTooSmall`) error
carrying `data_size > output_size` — not with `ScanLineLongerThanWidth`,
whose post-loop check is unreachable (the loop keeps `x ≤ width`). Every
error of `scan_line` is either a parse error or such a `ToSmallOutput`. -/
theorem claim_c8 (input output : List Nat) (e : ImgError)
    (h : scanLine input output = .error e) :
    (∀ x w, e ≠ .scanLineLongerThanWidth x w) ∧
      (e = .scanLineParsing ∨ ∃ d s, e = .toSmallOutput d s ∧ s < d) := by
  unfold scanLine at h
  cases hg : scanLineGo output.length (output.length + 1) ⟨input, 0⟩ output 0 with
  | ok r => rw [hg] at h; exact absurd h (by simp)
  | error e1 =>
    rw [hg] at h
    simp only [Except.error.injEq] at h
    have hk := scanLineGo_error_kind (output.length + 1) ⟨input, 0⟩ output 0 e1
      rfl (Nat.zero_le _) hg
    rw [← h]
    refine ⟨?_, hk⟩
    rcases hk with h1 | ⟨d, s, h2, _⟩
    · rw [h1]; intro x w hcon; cases hcon
    · rw [h2]; intro x w hcon; cases hcon

/-- Witness for C8: the run `11 01 ....` (count 3, value 1) against a
2-pixel line; `scan_line` fails with `ToSmallOutput` carrying data size 3
against output size 2. -/
theorem claim_c8_witness :
    scanLine [0xD0] [0, 0] = .error (.toSmallOutput 3 2) ∧
      ((∀ x w, ImgError.toSmallOutput 3 2 ≠ .scanLineLongerThanWidth x w) ∧
        (ImgError.toSmallOutput 3 2 = .scanLineParsing ∨
          ∃ d s, ImgError.toSmallOutput 3 2 = .toSmallOutput d s ∧ s < d)) :=
  ⟨rfl, claim_c8 [0xD0] [0, 0] (.toSmallOutput 3 2) rfl⟩

/-- Counterexample for C8 as stated: on the overrunning run `11 01 ....`
against a 2-pixel line the error is `ToSmallOutput { data_size: 3,
output_size: 2 }`, not `ScanLineLongerThanWidth`. -/
theorem claim_c8_counterexample :
    scanLine [0xD0] [0, 0] = .error (.toSmallOutput 3 2) ∧
      ∀ x w, Except.error (ε := ImgError) (α := List Nat × Nat)
        (.toSmallOutput 3 2) ≠ .error (.scanLineLongerThanWidth x w) := by
  refine ⟨rfl, ?_⟩
  intro x w hcon
  simp only [Except.error.injEq] at hcon
  cases hcon

/-! ### End-time back-fill facts -/

/-- Claim C1, amended. For every back-filled subtitle whose end time was
missing: the end satisfies `end ≤ start + 5 s` always; when a following
subtitle exists the end also satisfies `end < next.start`, and
`start < end` holds exactly when `next.start > start + 0.001 s`; when no
following subtitle exists the end is exactly `start + 5 s`, so
`start < end`. The original claim's unconditional `start < end` fails
when the following subtitle starts no later than `start + 0.001 s`. -/
theorem claim_c1 : ∀ (l : List Subtitle) (i : Nat) (s t : Subtitle),
    l[i]? = some s → s.endTime = none → (backfill l)[i]? = some t →
    ∃ e, t.endTime = some e ∧
      e ≤ s.startTime + defaultSubtitleLength ∧
      (∀ nxt, l[i + 1]? = some nxt → e < nxt.startTime ∧
        (s.startTime < e ↔ s.startTime + defaultSubtitleSpacing < nxt.startTime)) ∧
      (l[i + 1]? = none → e = s.startTime + defaultSubtitleLength ∧ s.startTime < e) := by
  intro l
  induction l with
  | nil => intro i s t hs _ _; simp at hs
  | cons s0 ltail ih =>
    cases ltail with
    | nil =>
      intro i s t hs hnone ht
      cases i with
      | zero =>
        simp only [List.getElem?_cons_zero, Option.some.injEq] at hs
        simp only [backfill, List.getElem?_cons_zero, Option.some.injEq] at ht
        subst hs
        simp only [fillEndLast, hnone] at ht
        refine ⟨s0.startTime + defaultSubtitleLength, ?_, le_refl _, ?_, ?_⟩
        · rw [← ht]
        · intro nxt hnxt
          simp at hnxt
        · intro _
          refine ⟨rfl, ?_⟩
          have : (0 : ℚ) < defaultSubtitleLength := by norm_num [defaultSubtitleLength]
          linarith
      | succ j =>
        simp only [List.getElem?_cons_succ] at hs
        simp at hs
    | cons s1 rest =>
      intro i s t hs hnone ht
      cases i with
      | zero =>
        simp only [List.getElem?_cons_zero, Option.some.injEq] at hs
        simp only [backfill, List.getElem?_cons_zero, Option.some.injEq] at ht
        subst hs
        simp only [fillEndWithNext, hnone] at ht
        refine ⟨min (s1.startTime - defaultSubtitleSpacing)
          (s0.startTime + defaultSubtitleLength), ?_, min_le_right _ _, ?_, ?_⟩
        · rw [← ht]
        · intro nxt hnxt
          simp only [List.getElem?_cons_succ, List.getElem?_cons_zero,
            Option.some.injEq] at hnxt
          subst hnxt
          have hsp : (0 : ℚ) < defaultSubtitleSpacing := by
            norm_num [defaultSubtitleSpacing]
          have hlen5 : (0 : ℚ) < defaultSubtitleLength := by
            norm_num [defaultSubtitleLength]
          constructor
          · have h1 : min (s1.startTime - defaultSubtitleSpacing)
                (s0.startTime + defaultSubtitleLength) ≤
                s1.startTime - defaultSubtitleSpacing := min_le_left _ _
            linarith
          · rw [lt_min_iff]
            constructor
            · intro hand
              linarith [hand.1]
            · intro hgt
              exact ⟨by linarith, by linarith⟩
        · intro hcon
          simp at hcon
      | succ j =>
        simp only [List.getElem?_cons_succ] at hs ht
        have ht' : (backfill (s1 :: rest))[j]? = some t := by
          simpa only [backfill, List.getElem?_cons_succ] using ht
        simpa only [List.getElem?_cons_succ] using ih j s t hs hnone ht'

/-- Witness for C1: two subtitles starting at 0 s and 2 s, the first with
no end time; the back-filled end is `min(2 - 0.001, 0 + 5) = 1.999 s`. -/
theorem claim_c1_witness :
    (([⟨0, none, false, ⟨⟨0, 0, 1, 1⟩⟩, [], [], []⟩,
        ⟨2, none, false, ⟨⟨0, 0, 1, 1⟩⟩, [], [], []⟩] :
        List Subtitle)[0]? = some ⟨0, none, false, ⟨⟨0, 0, 1, 1⟩⟩, [], [], []⟩) ∧
    ((backfill [⟨0, none, false, ⟨⟨0, 0, 1, 1⟩⟩, [], [], []⟩,
        ⟨2, none, false, ⟨⟨0, 0, 1, 1⟩⟩, [], [], []⟩])[0]? =
      some ⟨0, some (1999 / 1000), false, ⟨⟨0, 0, 1, 1⟩⟩, [], [], []⟩) ∧
    (∃ e, (Subtitle.endTime ⟨0, some (1999 / 1000), false, ⟨⟨0, 0, 1, 1⟩⟩, [], [], []⟩) = some e ∧
      e ≤ (0 : ℚ) + defaultSubtitleLength ∧
      (∀ nxt, ([⟨0, none, false, ⟨⟨0, 0, 1, 1⟩⟩, [], [], []⟩,
          ⟨2, none, false, ⟨⟨0, 0, 1, 1⟩⟩, [], [], []⟩] :
          List Subtitle)[0 + 1]? = some nxt → e < nxt.startTime ∧
        ((0 : ℚ) < e ↔ (0 : ℚ) + defaultSubtitleSpacing < nxt.startTime)) ∧
      (([⟨0, none, false, ⟨⟨0, 0, 1, 1⟩⟩, [], [], []⟩,
          ⟨2, none, false, ⟨⟨0, 0, 1, 1⟩⟩, [], [], []⟩] :
          List Subtitle)[0 + 1]? = none → e = (0 : ℚ) + defaultSubtitleLength ∧ (0 : ℚ) < e)) := by
  have hb : (backfill [⟨0, none, false, ⟨⟨0, 0, 1, 1⟩⟩, [], [], []⟩,
      ⟨2, none, false, ⟨⟨0, 0, 1, 1⟩⟩, [], [], []⟩])[0]? =
      some ⟨0, some (1999 / 1000), false, ⟨⟨0, 0, 1, 1⟩⟩, [], [], []⟩ := by
    simp [backfill, fillEndWithNext]
    rw [min_def]
    norm_num [defaultSubtitleSpacing, defaultSubtitleLength]
  have hc := claim_c1 [⟨0, none, false, ⟨⟨0, 0, 1, 1⟩⟩, [], [], []⟩,
      ⟨2, none, false, ⟨⟨0, 0, 1, 1⟩⟩, [], [], []⟩] 0
    ⟨0, none, false, ⟨⟨0, 0, 1, 1⟩⟩, [], [], []⟩
    ⟨0, some (1999 / 1000), false, ⟨⟨0, 0, 1, 1⟩⟩, [], [], []⟩
    rfl rfl hb
  exact ⟨rfl, hb, hc⟩

/-- Counterexample for C1 as stated: two subtitles both starting at 0 s,
the first with no end time. The back-filled end of the first is
`min(0 - 0.001, 0 + 5) = -0.001 < start`, violating `start < end`. -/
theorem claim_c1_counterexample :
    ((backfill [⟨0, none, false, ⟨⟨0, 0, 1, 1⟩⟩, [], [], []⟩,
        ⟨0, none, false, ⟨⟨0, 0, 1, 1⟩⟩, [], [], []⟩])[0]?.map Subtitle.endTime =
      some (some (-(1 / 1000) : ℚ))) ∧
    ¬ ((0 : ℚ) < -(1 / 1000)) := by
  constructor
  · simp [backfill, fillEndWithNext]
    rw [min_def]
    norm_num [defaultSubtitleSpacing, defaultSubtitleLength]
  · norm_num

/-! ### Control-sequence accumulation facts -/

theorem optOr_none_left {α : Type} (b : Option α) : optOr none b = b := rfl

theorem optOr_none_right {α : Type} (a : Option α) : optOr a none = a := by
  cases a <;> rfl

theorem optOr_some_absorb {α : Type} (a : Option α) (v : α) (x : Option α) :
    optOr (optOr a (some v)) x = optOr a (some v) := by
  cases a <;> rfl

theorem processCommands_eq (time : ℚ) (cmds : List ControlCommand) : ∀ acc : SubAccum,
    processCommands time acc cmds = processTimed acc (cmds.map fun c => (time, c)) := by
  induction cmds with
  | nil => intro acc; rfl
  | cons c rest ih =>
    intro acc
    simp only [processCommands, List.map_cons, processTimed]
    cases hpc : processCommand time acc c with
    | error e => rfl
    | ok acc' => exact ih acc'

theorem processTimed_append (l1 l2 : List (ℚ × ControlCommand)) : ∀ acc : SubAccum,
    processTimed acc (l1 ++ l2) =
      match processTimed acc l1 with
      | .error e => .error e
      | .ok acc' => processTimed acc' l2 := by
  induction l1 with
  | nil => intro acc; rfl
  | cons tc rest ih =>
    intro acc
    simp only [List.cons_append, processTimed]
    cases hpc : processCommand tc.1 acc tc.2 with
    | error e => rfl
    | ok acc' => exact ih acc'

theorem timedCommands_cons (b : ℚ) (s : ControlSequenceData)
    (rest : List ControlSequenceData) :
    timedCommands b (s :: rest) =
      (s.commands.map fun c => (seqTime b s, c)) ++ timedCommands b rest := by
  simp [timedCommands]

theorem processSequences_eq (b : ℚ) (seqs : List ControlSequenceData) :
    ∀ acc : SubAccum,
      processSequences b acc seqs = processTimed acc (timedCommands b seqs) := by
  induction seqs with
  | nil => intro acc; rfl
  | cons s rest ih =>
    intro acc
    rw [timedCommands_cons, processTimed_append, ← processCommands_eq]
    simp only [processSequences]
    cases hpc : processCommands (seqTime b s) acc s.commands with
    | error e => rfl
    | ok acc' => exact ih acc'

theorem processTimed_fields : ∀ (l : List (ℚ × ControlCommand)) (acc res : SubAccum),
    processTimed acc l = .ok res →
    res.startTime = optOr acc.startTime (firstStartOcc l) ∧
    res.endTime = optOr acc.endTime (firstStopOcc l) ∧
    res.palette = optOr acc.palette (firstPaletteOcc l) ∧
    res.alpha = optOr acc.alpha (firstAlphaOcc l) ∧
    res.area = optOr acc.area ((firstCoordsOcc l).bind areaOfCoords) ∧
    res.rleOffsets = optOr (lastRleOcc l) acc.rleOffsets ∧
    res.force = (acc.force || anyForceOcc l) := by
  intro l
  induction l with
  | nil =>
    intro acc res h
    simp only [processTimed, Except.ok.injEq] at h
    subst h
    simp [firstStartOcc, firstStopOcc, firstPaletteOcc, firstAlphaOcc,
      firstCoordsOcc, lastRleOcc, anyForceOcc, optOr_none_right, optOr_none_left]
  | cons tc rest ih =>
    intro acc res h
    obtain ⟨t, c⟩ := tc
    simp only [processTimed] at h
    cases c with
    | force =>
      simp only [processCommand] at h
      obtain ⟨h1, h2, h3, h4, h5, h6, h7⟩ := ih _ res h
      clear h
      refine ⟨?_, ?_, ?_, ?_, ?_, ?_, ?_⟩
      · simpa [firstStartOcc, List.filterMap_cons] using h1
      · simpa [firstStopOcc, List.filterMap_cons] using h2
      · simpa [firstPaletteOcc, List.filterMap_cons] using h3
      · simpa [firstAlphaOcc, List.filterMap_cons] using h4
      · simpa [firstCoordsOcc, List.filterMap_cons] using h5
      · simpa [lastRleOcc, List.filterMap_cons] using h6
      · rw [h7]; simp [anyForceOcc, List.any_cons]
    | startDate =>
      simp only [processCommand] at h
      obtain ⟨h1, h2, h3, h4, h5, h6, h7⟩ := ih _ res h
      clear h
      refine ⟨?_, ?_, ?_, ?_, ?_, ?_, ?_⟩
      · rw [h1]; simp [firstStartOcc, List.filterMap_cons, optOr_some_absorb]
      · simpa [firstStopOcc, List.filterMap_cons] using h2
      · simpa [firstPaletteOcc, List.filterMap_cons] using h3
      · simpa [firstAlphaOcc, List.filterMap_cons] using h4
      · simpa [firstCoordsOcc, List.filterMap_cons] using h5
      · simpa [lastRleOcc, List.filterMap_cons] using h6
      · rw [h7]; simp [anyForceOcc, List.any_cons]
    | stopDate =>
      simp only [processCommand] at h
      obtain ⟨h1, h2, h3, h4, h5, h6, h7⟩ := ih _ res h
      clear h
      refine ⟨?_, ?_, ?_, ?_, ?_, ?_, ?_⟩
      · simpa [firstStartOcc, List.filterMap_cons] using h1
      · rw [h2]; simp [firstStopOcc, List.filterMap_cons, optOr_some_absorb]
      · simpa [firstPaletteOcc, List.filterMap_cons] using h3
      · simpa [firstAlphaOcc, List.filterMap_cons] using h4
      · simpa [firstCoordsOcc, List.filterMap_cons] using h5
      · simpa [lastRleOcc, List.filterMap_cons] using h6
      · rw [h7]; simp [anyForceOcc, List.any_cons]
    | palette p =>
      simp only [processCommand] at h
      obtain ⟨h1, h2, h3, h4, h5, h6, h7⟩ := ih _ res h
      clear h
      refine ⟨?_, ?_, ?_, ?_, ?_, ?_, ?_⟩
      · simpa [firstStartOcc, List.filterMap_cons] using h1
      · simpa [firstStopOcc, List.filterMap_cons] using h2
      · rw [h3]; simp [firstPaletteOcc, List.filterMap_cons, optOr_some_absorb]
      · simpa [firstAlphaOcc, List.filterMap_cons] using h4
      · simpa [firstCoordsOcc, List.filterMap_cons] using h5
      · simpa [lastRleOcc, List.filterMap_cons] using h6
      · rw [h7]; simp [anyForceOcc, List.any_cons]
    | alpha a =>
      simp only [processCommand] at h
      obtain ⟨h1, h2, h3, h4, h5, h6, h7⟩ := ih _ res h
      clear h
      refine ⟨?_, ?_, ?_, ?_, ?_, ?_, ?_⟩
      · simpa [firstStartOcc, List.filterMap_cons] using h1
      · simpa [firstStopOcc, List.filterMap_cons] using h2
      · simpa [firstPaletteOcc, List.filterMap_cons] using h3
      · rw [h4]; simp [firstAlphaOcc, List.filterMap_cons, optOr_some_absorb]
      · simpa [firstCoordsOcc, List.filterMap_cons] using h5
      · simpa [lastRleOcc, List.filterMap_cons] using h6
      · rw [h7]; simp [anyForceOcc, List.any_cons]
    | coordinates cv =>
      simp only [processCommand] at h
      cases htf : Area.tryFrom cv with
      | error e => rw [htf] at h; exact absurd h (by simp)
      | ok ar =>
        rw [htf] at h
        obtain ⟨h1, h2, h3, h4, h5, h6, h7⟩ := ih _ res h
        clear h
        refine ⟨?_, ?_, ?_, ?_, ?_, ?_, ?_⟩
        · simpa [firstStartOcc, List.filterMap_cons] using h1
        · simpa [firstStopOcc, List.filterMap_cons] using h2
        · simpa [firstPaletteOcc, List.filterMap_cons] using h3
        · simpa [firstAlphaOcc, List.filterMap_cons] using h4
        · rw [h5]
          simp [firstCoordsOcc, List.filterMap_cons, optOr_some_absorb,
            areaOfCoords, htf]
        · simpa [lastRleOcc, List.filterMap_cons] using h6
        · rw [h7]; simp [anyForceOcc, List.any_cons]
    | rleOffsets o1 o2 =>
      simp only [processCommand] at h
      obtain ⟨h1, h2, h3, h4, h5, h6, h7⟩ := ih _ res h
      clear h
      refine ⟨?_, ?_, ?_, ?_, ?_, ?_, ?_⟩
      · simpa [firstStartOcc, List.filterMap_cons] using h1
      · simpa [firstStopOcc, List.filterMap_cons] using h2
      · simpa [firstPaletteOcc, List.filterMap_cons] using h3
      · simpa [firstAlphaOcc, List.filterMap_cons] using h4
      · simpa [firstCoordsOcc, List.filterMap_cons] using h5
      · rw [h6]
        simp only [lastRleOcc, List.filterMap_cons]
        cases hfm : (rest.filterMap fun tc =>
            match tc.2 with
            | ControlCommand.rleOffsets a b => some (a, b)
            | _ => none) with
        | nil => simp [hfm, optOr, optOr_none_right]
        | cons r rs =>
          simp only [hfm, List.getLast?_cons_cons]
          cases hgl : (r :: rs).getLast? with
          | none => simp at hgl
          | some rr => simp [hgl, optOr]
      · rw [h7]; simp [anyForceOcc, List.any_cons]
    | unsupported =>
      simp only [processCommand] at h
      obtain ⟨h1, h2, h3, h4, h5, h6, h7⟩ := ih _ res h
      clear h
      refine ⟨?_, ?_, ?_, ?_, ?_, ?_, ?_⟩
      · simpa [firstStartOcc, List.filterMap_cons] using h1
      · simpa [firstStopOcc, List.filterMap_cons] using h2
      · simpa [firstPaletteOcc, List.filterMap_cons] using h3
      · simpa [firstAlphaOcc, List.filterMap_cons] using h4
      · simpa [firstCoordsOcc, List.filterMap_cons] using h5
      · simpa [lastRleOcc, List.filterMap_cons] using h6
      · rw [h7]; simp [anyForceOcc, List.any_cons]

theorem processTimed_coords_valid : ∀ (l : List (ℚ × ControlCommand)) (acc res : SubAccum),
    processTimed acc l = .ok res →
    ∀ t c, (t, ControlCommand.coordinates c) ∈ l → ∃ ar, Area.tryFrom c = .ok ar := by
  intro l
  induction l with
  | nil => intro acc res h t c hmem; simp at hmem
  | cons tc0 rest ih =>
    intro acc res h t c hmem
    simp only [processTimed] at h
    cases hpc : processCommand tc0.1 acc tc0.2 with
    | error e => rw [hpc] at h; exact absurd h (by simp)
    | ok acc' =>
      rw [hpc] at h
      rcases List.mem_cons.mp hmem with heq | hrest
      · rw [← heq] at hpc
        simp only [processCommand] at hpc
        cases htf : Area.tryFrom c with
        | error e => rw [htf] at hpc; exact absurd hpc (by simp)
        | ok ar => exact ⟨ar, rfl⟩
      · exact ih acc' res h t c hrest

theorem head?_filterMap_mem {α β : Type} (f : α → Option β) (l : List α) (b : β)
    (h : (l.filterMap f).head? = some b) : ∃ a ∈ l, f a = some b := by
  cases hfm : l.filterMap f with
  | nil => rw [hfm] at h; simp at h
  | cons x xs =>
    rw [hfm] at h
    simp only [List.head?_cons, Option.some.injEq] at h
    subst h
    have hx : x ∈ l.filterMap f := by rw [hfm]; exact List.mem_cons_self _ _
    exact List.mem_filterMap.mp hx

/-- Claim C3: over a successful VobSub control interpretation, start time,
end time, palette quad, alpha quad and area keep the first occurrence
across all walked control sequences (for the area, the first Coordinates
payload validated through `Area::try_from`); the RLE offsets keep the
last occurrence; and the force flag is set exactly when a Force command
occurs anywhere. -/
theorem claim_c3 (b : ℚ) (seqs : List ControlSequenceData) (acc : SubAccum)
    (h : interpretSequences b seqs = .ok acc) :
    acc.startTime = firstStartOcc (timedCommands b seqs) ∧
    acc.endTime = firstStopOcc (timedCommands b seqs) ∧
    acc.palette = firstPaletteOcc (timedCommands b seqs) ∧
    acc.alpha = firstAlphaOcc (timedCommands b seqs) ∧
    acc.rleOffsets = lastRleOcc (timedCommands b seqs) ∧
    acc.force = anyForceOcc (timedCommands b seqs) ∧
    (∀ c, firstCoordsOcc (timedCommands b seqs) = some c →
      ∃ ar, Area.tryFrom c = .ok ar ∧ acc.area = some ar) ∧
    (firstCoordsOcc (timedCommands b seqs) = none → acc.area = none) := by
  unfold interpretSequences at h
  rw [processSequences_eq] at h
  obtain ⟨h1, h2, h3, h4, h5, h6, h7⟩ := processTimed_fields _ _ _ h
  have hvalid := processTimed_coords_valid _ _ _ h
  refine ⟨?_, ?_, ?_, ?_, ?_, ?_, ?_, ?_⟩
  · rw [h1]; simp [initAccum, optOr_none_left]
  · rw [h2]; simp [initAccum, optOr_none_left]
  · rw [h3]; simp [initAccum, optOr_none_left]
  · rw [h4]; simp [initAccum, optOr_none_left]
  · rw [h6]; simp [initAccum, optOr_none_right]
  · rw [h7]; simp [initAccum]
  · intro c hc
    have hc' : ((timedCommands b seqs).filterMap fun tc =>
        match tc.2 with
        | ControlCommand.coordinates cv => some cv
        | _ => none).head? = some c := hc
    obtain ⟨a, hmem, hf⟩ := head?_filterMap_mem _ _ _ hc'
    obtain ⟨t', cc⟩ := a
    cases cc with
    | coordinates cv =>
      simp only [Option.some.injEq] at hf
      subst hf
      obtain ⟨ar, har⟩ := hvalid t' cv hmem
      refine ⟨ar, har, ?_⟩
      rw [h5]
      simp [initAccum, optOr_none_left, hc, areaOfCoords, har]
    | force => simp at hf
    | startDate => simp at hf
    | stopDate => simp at hf
    | palette p => simp at hf
    | alpha aq => simp at hf
    | rleOffsets o1 o2 => simp at hf
    | unsupported => simp at hf
  · intro hc
    rw [h5]
    simp [initAccum, optOr_none_left, hc]

/-- Witness for C3: two control sequences where the second duplicates the
palette, adds a later RLE-offsets pair and a Force command; the
accumulator keeps the first palette, the last RLE offsets, and sets
force. -/
theorem claim_c3_witness :
    (interpretSequences 0
      [⟨0, [.startDate, .palette [0, 3, 1, 0], .alpha [15, 15, 15, 0],
        .coordinates ⟨0, 0, 1, 1⟩, .rleOffsets 4 123]⟩,
       ⟨100, [.stopDate, .palette [9, 9, 9, 9], .rleOffsets 7 8, .force]⟩] =
      .ok ⟨some 0, some 1, true, some ⟨⟨0, 0, 1, 1⟩⟩, some [0, 3, 1, 0],
        some [15, 15, 15, 0], some (7, 8)⟩) ∧
    (SubAccum.palette ⟨some 0, some 1, true, some ⟨⟨0, 0, 1, 1⟩⟩, some [0, 3, 1, 0],
        some [15, 15, 15, 0], some (7, 8)⟩ =
      firstPaletteOcc (timedCommands 0
        [⟨0, [.startDate, .palette [0, 3, 1, 0], .alpha [15, 15, 15, 0],
          .coordinates ⟨0, 0, 1, 1⟩, .rleOffsets 4 123]⟩,
         ⟨100, [.stopDate, .palette [9, 9, 9, 9], .rleOffsets 7 8, .force]⟩])) ∧
    (SubAccum.rleOffsets ⟨some 0, some 1, true, some ⟨⟨0, 0, 1, 1⟩⟩, some [0, 3, 1, 0],
        some [15, 15, 15, 0], some (7, 8)⟩ =
      lastRleOcc (timedCommands 0
        [⟨0, [.startDate, .palette [0, 3, 1, 0], .alpha [15, 15, 15, 0],
          .coordinates ⟨0, 0, 1, 1⟩, .rleOffsets 4 123]⟩,
         ⟨100, [.stopDate, .palette [9, 9, 9, 9], .rleOffsets 7 8, .force]⟩])) := by
  have h : interpretSequences 0
      [⟨0, [.startDate, .palette [0, 3, 1, 0], .alpha [15, 15, 15, 0],
        .coordinates ⟨0, 0, 1, 1⟩, .rleOffsets 4 123]⟩,
       ⟨100, [.stopDate, .palette [9, 9, 9, 9], .rleOffsets 7 8, .force]⟩] =
      .ok ⟨some 0, some 1, true, some ⟨⟨0, 0, 1, 1⟩⟩, some [0, 3, 1, 0],
        some [15, 15, 15, 0], some (7, 8)⟩ := by
    norm_num [interpretSequences, processSequences, processCommands, processCommand,
      seqTime, Area.tryFrom, optOr, initAccum]
  have hc := claim_c3 0
    [⟨0, [.startDate, .palette [0, 3, 1, 0], .alpha [15, 15, 15, 0],
      .coordinates ⟨0, 0, 1, 1⟩, .rleOffsets 4 123]⟩,
     ⟨100, [.stopDate, .palette [9, 9, 9, 9], .rleOffsets 7 8, .force]⟩]
    ⟨some 0, some 1, true, some ⟨⟨0, 0, 1, 1⟩⟩, some [0, 3, 1, 0],
      some [15, 15, 15, 0], some (7, 8)⟩ h
  exact ⟨h, hc.2.2.1, hc.2.2.2.2.1⟩

/-! ### Subtitle emission facts -/

theorem finishSubtitle_fields {raw : List Nat} {ico : Nat} {acc : SubAccum}
    {sub : Subtitle} (h : finishSubtitle raw ico acc = .ok sub) :
    acc.startTime = some sub.startTime ∧ acc.endTime = sub.endTime ∧
      acc.force = sub.force ∧ acc.area = some sub.area ∧
      acc.palette = some sub.palette ∧ acc.alpha = some sub.alpha := by
  unfold finishSubtitle at h
  split at h
  · exact absurd h (by simp)
  · rename_i startTime hst
    split at h
    · exact absurd h (by simp)
    · rename_i area har
      split at h
      · exact absurd h (by simp)
      · rename_i palette hpal
        split at h
        · exact absurd h (by simp)
        · rename_i alpha hal
          split at h
          · exact absurd h (by simp)
          · rename_i rle hrle
            split at h
            · exact absurd h (by simp)
            · split at h
              · exact absurd h (by simp)
              · simp only [Except.ok.injEq] at h
                subst h
                exact ⟨hst, rfl, rfl, har, hpal, hal⟩

/-- Claim C4 is corrected: the control interpreter applies no reversal at
decode time. The emitted subtitle's palette and alpha quads are exactly
the first parsed quads (a Palette command with nibbles `[0,3,1,0]` emits
the quad `[0,3,1,0]`, as the code's own test asserts); the reversal
happens at image-conversion time instead, where `to_image` indexes both
quads with `3 - v` for a raw 2-bit pixel value `v`. -/
theorem claim_c4 (b : ℚ) (seqs : List ControlSequenceData) (raw : List Nat)
    (ico : Nat) (acc : SubAccum) (sub : Subtitle)
    (h1 : interpretSequences b seqs = .ok acc)
    (h2 : finishSubtitle raw ico acc = .ok sub) :
    firstPaletteOcc (timedCommands b seqs) = some sub.palette ∧
    firstAlphaOcc (timedCommands b seqs) = some sub.alpha ∧
    ∀ (pal : List Rgb) (x y : Nat),
      sub.toImagePixel pal x y =
        quadPixel sub pal (3 - sub.rawImage.getD (y * sub.area.width + x) 0) := by
  unfold interpretSequences at h1
  rw [processSequences_eq] at h1
  obtain ⟨-, -, h3, h4, -, -, -⟩ := processTimed_fields _ _ _ h1
  obtain ⟨-, -, -, -, hpal, hal⟩ := finishSubtitle_fields h2
  refine ⟨?_, ?_, ?_⟩
  · rw [← hpal, h3]; simp [initAccum, optOr_none_left]
  · rw [← hal, h4]; simp [initAccum, optOr_none_left]
  · intro pal x y
    rfl

/-- Witness for C4: the full pipeline on one control sequence carrying
`Palette([0,3,1,0])`; the emitted subtitle carries the quad unreversed. -/
theorem claim_c4_witness :
    (interpretSequences 0
      [⟨0, [.startDate, .palette [0, 3, 1, 0], .alpha [15, 15, 15, 0],
        .coordinates ⟨0, 0, 1, 1⟩, .rleOffsets 4 5]⟩] =
      .ok ⟨some 0, none, false, some ⟨⟨0, 0, 1, 1⟩⟩, some [0, 3, 1, 0],
        some [15, 15, 15, 0], some (4, 5)⟩) ∧
    (finishSubtitle [0, 0, 0, 0, 0x44, 0x44, 0, 0] 6
      ⟨some 0, none, false, some ⟨⟨0, 0, 1, 1⟩⟩, some [0, 3, 1, 0],
        some [15, 15, 15, 0], some (4, 5)⟩ =
      .ok ⟨0, none, false, ⟨⟨0, 0, 1, 1⟩⟩, [0, 3, 1, 0], [15, 15, 15, 0],
        [0, 0, 0, 0]⟩) ∧
    firstPaletteOcc (timedCommands 0
      [⟨0, [.startDate, .palette [0, 3, 1, 0], .alpha [15, 15, 15, 0],
        .coordinates ⟨0, 0, 1, 1⟩, .rleOffsets 4 5]⟩]) =
      some (Subtitle.palette ⟨0, none, false, ⟨⟨0, 0, 1, 1⟩⟩, [0, 3, 1, 0],
        [15, 15, 15, 0], [0, 0, 0, 0]⟩) := by
  have h1 : interpretSequences 0
      [⟨0, [.startDate, .palette [0, 3, 1, 0], .alpha [15, 15, 15, 0],
        .coordinates ⟨0, 0, 1, 1⟩, .rleOffsets 4 5]⟩] =
      .ok ⟨some 0, none, false, some ⟨⟨0, 0, 1, 1⟩⟩, some [0, 3, 1, 0],
        some [15, 15, 15, 0], some (4, 5)⟩ := by
    norm_num [interpretSequences, processSequences, processCommands, processCommand,
      seqTime, Area.tryFrom, optOr, initAccum]
  have h2 : finishSubtitle [0, 0, 0, 0, 0x44, 0x44, 0, 0] 6
      ⟨some 0, none, false, some ⟨⟨0, 0, 1, 1⟩⟩, some [0, 3, 1, 0],
        some [15, 15, 15, 0], some (4, 5)⟩ =
      .ok ⟨0, none, false, ⟨⟨0, 0, 1, 1⟩⟩, [0, 3, 1, 0], [15, 15, 15, 0],
        [0, 0, 0, 0]⟩ := by
    rfl
  exact ⟨h1, h2, (claim_c4 0 _ _ 6 _ _ h1 h2).1⟩

/-- Counterexample for C4 as stated: the pipeline on a control sequence
whose Palette command carries nibbles `[0,3,1,0]` emits a subtitle whose
palette quad is `[0,3,1,0]`, not the reversed `[0,1,3,0]`. -/
theorem claim_c4_counterexample :
    (interpretSequences 0
      [⟨0, [.startDate, .palette [0, 3, 1, 0], .alpha [15, 15, 15, 0],
        .coordinates ⟨0, 0, 1, 1⟩, .rleOffsets 4 5]⟩] =
      .ok ⟨some 0, none, false, some ⟨⟨0, 0, 1, 1⟩⟩, some [0, 3, 1, 0],
        some [15, 15, 15, 0], some (4, 5)⟩) ∧
    (finishSubtitle [0, 0, 0, 0, 0x44, 0x44, 0, 0] 6
      ⟨some 0, none, false, some ⟨⟨0, 0, 1, 1⟩⟩, some [0, 3, 1, 0],
        some [15, 15, 15, 0], some (4, 5)⟩ =
      .ok ⟨0, none, false, ⟨⟨0, 0, 1, 1⟩⟩, [0, 3, 1, 0], [15, 15, 15, 0],
        [0, 0, 0, 0]⟩) ∧
    ([0, 3, 1, 0] : List Nat) ≠ [0, 1, 3, 0] := by
  refine ⟨?_, rfl, by decide⟩
  norm_num [interpretSequences, processSequences, processCommands, processCommand,
    seqTime, Area.tryFrom, optOr, initAccum]

/-! ### PGS TimeOnly decoder facts -/

theorem endSegPts_cons (seg : RawSegment) (rest : List RawSegment) :
    endSegPts (seg :: rest) =
      if seg.typeCode = .endCode then seg.pts :: endSegPts rest
      else endSegPts rest := by
  unfold endSegPts
  rw [List.filter_cons]
  by_cases h : seg.typeCode = SegmentTypeCode.endCode
  · simp [h]
  · simp [h]

theorem timeOnlyGo_some_emit : ∀ (segs : List RawSegment) (t0 : TimePoint)
    (ts : TimeSpan), timeOnlyGo (some t0) segs = some ts →
    ∃ p2 tail, endSegPts segs = p2 :: tail ∧
      ts = ⟨t0, ⟨((p2 / 90 : Nat) : Int)⟩⟩ := by
  intro segs
  induction segs with
  | nil => intro t0 ts h; simp [timeOnlyGo] at h
  | cons seg rest ih =>
    intro t0 ts h
    cases htc : seg.typeCode with
    | endCode =>
      simp only [timeOnlyGo, htc, Option.some.injEq] at h
      refine ⟨seg.pts, endSegPts rest, ?_, ?_⟩
      · rw [endSegPts_cons, if_pos htc]
      · rw [← h]; rfl
    | pds =>
      simp only [timeOnlyGo, htc] at h
      obtain ⟨p2, tail, he, hts⟩ := ih t0 ts h
      exact ⟨p2, tail, by rw [endSegPts_cons, if_neg (by simp [htc])]; exact he, hts⟩
    | ods =>
      simp only [timeOnlyGo, htc] at h
      obtain ⟨p2, tail, he, hts⟩ := ih t0 ts h
      exact ⟨p2, tail, by rw [endSegPts_cons, if_neg (by simp [htc])]; exact he, hts⟩
    | pcs =>
      simp only [timeOnlyGo, htc] at h
      obtain ⟨p2, tail, he, hts⟩ := ih t0 ts h
      exact ⟨p2, tail, by rw [endSegPts_cons, if_neg (by simp [htc])]; exact he, hts⟩
    | wds =>
      simp only [timeOnlyGo, htc] at h
      obtain ⟨p2, tail, he, hts⟩ := ih t0 ts h
      exact ⟨p2, tail, by rw [endSegPts_cons, if_neg (by simp [htc])]; exact he, hts⟩

theorem timeOnlyGo_none_emit : ∀ (segs : List RawSegment) (ts : TimeSpan),
    timeOnlyGo none segs = some ts →
    ∃ p1 p2 tail, endSegPts segs = p1 :: p2 :: tail ∧
      ts = ⟨⟨((p1 / 90 : Nat) : Int)⟩, ⟨((p2 / 90 : Nat) : Int)⟩⟩ := by
  intro segs
  induction segs with
  | nil => intro ts h; simp [timeOnlyGo] at h
  | cons seg rest ih =>
    intro ts h
    cases htc : seg.typeCode with
    | endCode =>
      simp only [timeOnlyGo, htc] at h
      obtain ⟨p2, tail, he, hts⟩ := timeOnlyGo_some_emit rest _ ts h
      refine ⟨seg.pts, p2, tail, ?_, hts⟩
      rw [endSegPts_cons, if_pos htc, he]
    | pds =>
      simp only [timeOnlyGo, htc] at h
      obtain ⟨p1, p2, tail, he, hts⟩ := ih ts h
      exact ⟨p1, p2, tail, by rw [endSegPts_cons, if_neg (by simp [htc])]; exact he, hts⟩
    | ods =>
      simp only [timeOnlyGo, htc] at h
      obtain ⟨p1, p2, tail, he, hts⟩ := ih ts h
      exact ⟨p1, p2, tail, by rw [endSegPts_cons, if_neg (by simp [htc])]; exact he, hts⟩
    | pcs =>
      simp only [timeOnlyGo, htc] at h
      obtain ⟨p1, p2, tail, he, hts⟩ := ih ts h
      exact ⟨p1, p2, tail, by rw [endSegPts_cons, if_neg (by simp [htc])]; exact he, hts⟩
    | wds =>
      simp only [timeOnlyGo, htc] at h
      obtain ⟨p1, p2, tail, he, hts⟩ := ih ts h
      exact ⟨p1, p2, tail, by rw [endSegPts_cons, if_neg (by simp [htc])]; exact he, hts⟩

/-- Claim C5 is corrected: the TimeOnly decoder performs no ordering
check, so `start ≤ end` holds for an emitted TimeSpan provided the
presentation timestamps of the stream's END segments are non-decreasing
(in particular of the two ENDs the pair is built from) — not over every
accepted segment stream. -/
theorem claim_c5 (segs : List RawSegment) (ts : TimeSpan)
    (h : parseNextTimeOnly segs = some ts)
    (hmono : List.Chain' (· ≤ ·) (endSegPts segs)) :
    ts.start.msecs ≤ ts.endTime.msecs := by
  obtain ⟨p1, p2, tail, he, hts⟩ := timeOnlyGo_none_emit segs ts h
  rw [he] at hmono
  have h12 : p1 ≤ p2 := (List.chain'_cons.mp hmono).1
  rw [hts]
  exact Int.ofNat_le.mpr (Nat.div_le_div_right h12)

/-- Witness for C5: a stream with two END segments at pts 0 and 90
(presentation times 0 ms and 1 ms). -/
theorem claim_c5_witness :
    (parseNextTimeOnly [⟨0, .endCode, 0, []⟩, ⟨90, .endCode, 0, []⟩] =
      some ⟨⟨0⟩, ⟨1⟩⟩) ∧
    List.Chain' (· ≤ ·) (endSegPts [⟨0, .endCode, 0, []⟩, ⟨90, .endCode, 0, []⟩]) ∧
    (TimeSpan.start ⟨⟨0⟩, ⟨1⟩⟩).msecs ≤ (TimeSpan.endTime ⟨⟨0⟩, ⟨1⟩⟩).msecs := by
  have hchain : List.Chain' (· ≤ ·)
      (endSegPts [⟨0, .endCode, 0, []⟩, ⟨90, .endCode, 0, []⟩]) := by
    norm_num [endSegPts, List.filter_cons, List.chain'_cons]
  exact ⟨by decide, hchain,
    claim_c5 [⟨0, .endCode, 0, []⟩, ⟨90, .endCode, 0, []⟩] ⟨⟨0⟩, ⟨1⟩⟩
      (by decide) hchain⟩

/-- Counterexample for C5 as stated: a stream the decoder accepts whose
second END has a smaller pts than the first; the emitted TimeSpan has
`start = 1 ms > end = 0 ms`. -/
theorem claim_c5_counterexample :
    (parseNextTimeOnly [⟨90, .endCode, 0, []⟩, ⟨0, .endCode, 0, []⟩] =
      some ⟨⟨1⟩, ⟨0⟩⟩) ∧
    ¬ ((TimeSpan.start ⟨⟨1⟩, ⟨0⟩⟩).msecs ≤ (TimeSpan.endTime ⟨⟨1⟩, ⟨0⟩⟩).msecs) := by
  constructor
  · decide
  · decide

/-! ### PGS palette lookup facts -/

theorem getD_lt_256 {l : List Nat} (hb : ∀ x ∈ l, x < 256) (i d : Nat)
    (hd : d < 256) : l.getD i d < 256 := by
  rw [List.getD_eq_getElem?_getD]
  cases hg : l[i]? with
  | none => simpa [hg] using hd
  | some v =>
    have hv : v ∈ l := by
      have := List.getElem?_eq_some_iff.mp hg
      obtain ⟨hlt, hget⟩ := this
      exact hget ▸ List.getElem_mem hlt
    simpa [hg] using hb v hv

/-- Claim C10: `Palette::get` is total. For every palette parsed by
`pds::read` (segment size bounded by `u16`, body made of bytes) and every
8-bit color id, the lookup returns an entry exactly when the id shifted by
the stored offset (the negated first entry id) lands inside the entry
vector, and `None` otherwise — in particular whenever the shifted index is
mathematically negative, since the `as usize` cast then produces an index
near `2^64` that no entry vector of a `u16`-sized segment can reach. The
model of `get` is a total function: no panic path exists. -/
theorem claim_c10 (segSize : Nat) (body : List Nat) (pal : Palette) (id : Nat)
    (hsize : segSize ≤ 65535) (hbytes : ∀ x ∈ body, x < 256) (hid : id < 256)
    (h : pdsRead segSize body = .ok pal) :
    ((pal.get id).isSome ↔
      0 ≤ (id : Int) + pal.offset ∧
        ((id : Int) + pal.offset).toNat < pal.entries.length) ∧
    ((id : Int) + pal.offset < 0 → pal.get id = none) := by
  unfold pdsRead at h
  split at h
  · exact absurd h (by simp)
  · split at h
    · exact absurd h (by simp)
    · split at h
      · exact absurd h (by simp)
      · rename_i hblen hs2 hmul
        simp only [PdsOutcome.ok.injEq] at h
        subst h
        simp only [paletteNew, Palette.get]
        set nb := (segSize - 2) / 5 with hnb
        set buf := body.take segSize with hbuf
        set E := (List.range nb).map (fun idx =>
          (⟨buf.getD (2 + idx * 5) 0, buf.getD (2 + idx * 5 + 1) 0,
            buf.getD (2 + idx * 5 + 2) 0, buf.getD (2 + idx * 5 + 3) 0,
            buf.getD (2 + idx * 5 + 4) 0⟩ : PaletteEntry)) with hE
        have hbuf256 : ∀ x ∈ buf, x < 256 := fun x hx =>
          hbytes x (List.take_subset _ _ hx)
        have hElen : E.length = nb := by simp [hE]
        have hnb_le : nb ≤ 13106 := by omega
        have hEid : ∀ e ∈ E, e.id < 256 := by
          intro e he
          rw [hE] at he
          obtain ⟨i, _, hi⟩ := List.mem_map.mp he
          rw [← hi]
          exact getD_lt_256 hbuf256 _ _ (by norm_num)
        have hofs_le : computeOffset E ≤ 0 ∧ -255 ≤ computeOffset E := by
          cases hEc : E with
          | nil => simp [computeOffset]
          | cons e tail =>
            have : e.id < 256 := hEid e (hEc ▸ List.mem_cons_self _ _)
            simp only [computeOffset]
            omega
        by_cases h0 : 0 ≤ (id : Int) + computeOffset E
        · have hlt64 : (id : Int) + computeOffset E < 2 ^ 64 := by
            have : (id : Int) + computeOffset E ≤ (id : Int) := by omega
            calc (id : Int) + computeOffset E ≤ (id : Int) := this
              _ < 256 := by exact_mod_cast hid
              _ < 2 ^ 64 := by norm_num
          have husize : usizeOfI16 ((id : Int) + computeOffset E) =
              ((id : Int) + computeOffset E).toNat := by
            unfold usizeOfI16
            rw [Int.emod_eq_of_lt h0 hlt64]
          rw [husize]
          constructor
          · constructor
            · intro hsome
              refine ⟨h0, ?_⟩
              by_contra hcon
              rw [List.get?_eq_none.mpr (by omega)] at hsome
              simp at hsome
            · intro ⟨_, hlt⟩
              cases hg : E.get? (((id : Int) + computeOffset E).toNat) with
              | none =>
                have := List.get?_eq_none.mp hg
                omega
              | some v => simp
          · intro hneg
            omega
        · push_neg at h0
          have hge : -255 ≤ (id : Int) + computeOffset E := by omega
          have husize : usizeOfI16 ((id : Int) + computeOffset E) =
              ((id : Int) + computeOffset E + 2 ^ 64).toNat := by
            unfold usizeOfI16
            have h1 : ((id : Int) + computeOffset E) % 2 ^ 64 =
                ((id : Int) + computeOffset E + 2 ^ 64) % 2 ^ 64 := by
              omega
            rw [h1, Int.emod_eq_of_lt (by omega) (by omega)]
          rw [husize]
          have hbig : E.length ≤ ((id : Int) + computeOffset E + 2 ^ 64).toNat := by
            have : (2 : Int) ^ 64 - 255 ≤ (id : Int) + computeOffset E + 2 ^ 64 := by
              omega
            omega
          have hgn : E.get? (((id : Int) + computeOffset E + 2 ^ 64).toNat) = none :=
            List.get?_eq_none.mpr hbig
          rw [hgn]
          constructor
          · constructor
            · intro hsome; simp at hsome
            · intro ⟨hc, _⟩; omega
          · intro _; rfl

/-- Witness for C10: a two-entry palette whose first entry id is 5; the
lookup at id 4 shifts to the negative index -1 and returns `None`, while
id 5 lands on the first entry. -/
theorem claim_c10_witness :
    ((12 : Nat) ≤ 65535 ∧
      (∀ x ∈ ([0, 0, 5, 1, 2, 3, 4, 6, 9, 9, 9, 9] : List Nat), x < 256) ∧
      (4 : Nat) < 256 ∧
      pdsRead 12 [0, 0, 5, 1, 2, 3, 4, 6, 9, 9, 9, 9] =
        .ok (paletteNew [⟨5, 1, 2, 3, 4⟩, ⟨6, 9, 9, 9, 9⟩])) ∧
    (((paletteNew [⟨5, 1, 2, 3, 4⟩, ⟨6, 9, 9, 9, 9⟩]).get 4).isSome ↔
      0 ≤ (4 : Int) + (paletteNew [⟨5, 1, 2, 3, 4⟩, ⟨6, 9, 9, 9, 9⟩]).offset ∧
        ((4 : Int) + (paletteNew [⟨5, 1, 2, 3, 4⟩, ⟨6, 9, 9, 9, 9⟩]).offset).toNat <
          (paletteNew [⟨5, 1, 2, 3, 4⟩, ⟨6, 9, 9, 9, 9⟩]).entries.length) ∧
    ((4 : Int) + (paletteNew [⟨5, 1, 2, 3, 4⟩, ⟨6, 9, 9, 9, 9⟩]).offset < 0 →
      (paletteNew [⟨5, 1, 2, 3, 4⟩, ⟨6, 9, 9, 9, 9⟩]).get 4 = none) := by
  have h := claim_c10 12 [0, 0, 5, 1, 2, 3, 4, 6, 9, 9, 9, 9]
    (paletteNew [⟨5, 1, 2, 3, 4⟩, ⟨6, 9, 9, 9, 9⟩]) 4
    (by norm_num) (by decide) (by norm_num) (by decide)
  exact ⟨⟨by norm_num, by decide, by norm_num, by decide⟩, h.1, h.2⟩

/-! ### PGS ODS assembler facts -/

/-- Claim C7 states that `ods::read` returns `LastInSequenceFlagNotManaged`
on every flag/state combination other than (no state, First), (no state,
FirstAndLast), (Partial, Last). The code instead panics: with no retained
state it runs `assert!(flag == First || flag == FirstAndLast)` before the
branch that could return the error (making that branch dead code), and
with a retained Partial state it runs `assert!(flag == Last)`. This
theorem evaluates the model at a Last fragment with no pending state and
at a First fragment with a pending state: both panic, and a panic is not
the `LastInSequenceFlagNotManaged` error. -/
theorem claim_c7 :
    odsRead 8 [0, 0, 0, 0x40, 0, 0, 0, 0] none = .panic ∧
    odsRead 8 [0, 0, 0, 0x80, 0, 0, 0, 0] (some ⟨⟨0, 0, []⟩, 0⟩) = .panic ∧
    ∀ e : PgsError, (OdsOutcome.panic ≠ OdsOutcome.err e) := by
  refine ⟨by decide, by decide, ?_⟩
  intro e hcon
  exact OdsOutcome.noConfusion hcon

/-! ### PGS TimeAndImage decoder facts -/

theorem tiFinish_ok {sub out : Option (TimeSpan × RleEncodedImage)}
    {st stf : TiState} (h : tiFinish sub st = .ok out stf) :
    stf.palette = none ∧ stf.prevOds = none := by
  unfold tiFinish at h
  split at h
  · exact absurd h (by simp)
  · split at h
    · exact absurd h (by simp)
    · rename_i hpal hpo
      simp only [TiResult.ok.injEq] at h
      rw [← h.2]
      exact ⟨Option.not_isSome_iff_eq_none.mp hpal,
        Option.not_isSome_iff_eq_none.mp hpo⟩

theorem timeImageGo_ok : ∀ (segs : List RawSegment) (st : TiState)
    (out : Option (TimeSpan × RleEncodedImage)) (stf : TiState),
    timeImageGo st segs = .ok out stf →
    stf.palette = none ∧ stf.prevOds = none := by
  intro segs
  induction segs with
  | nil =>
    intro st out stf h
    exact tiFinish_ok h
  | cons seg rest ih =>
    intro st out stf h
    cases htc : seg.typeCode with
    | pds =>
      simp only [timeImageGo, htc] at h
      split at h
      · exact absurd h (by simp)
      · exact absurd h (by simp)
      · exact ih _ out stf h
    | ods =>
      simp only [timeImageGo, htc] at h
      split at h
      · exact absurd h (by simp)
      · exact absurd h (by simp)
      · split at h
        · exact absurd h (by simp)
        · exact ih _ out stf h
      · exact ih _ out stf h
    | endCode =>
      simp only [timeImageGo, htc] at h
      split at h
      · exact ih _ out stf h
      · split at h
        · exact tiFinish_ok h
        · split at h
          · exact absurd h (by simp)
          · exact tiFinish_ok h
    | pcs =>
      simp only [timeImageGo, htc] at h
      exact ih _ out stf h
    | wds =>
      simp only [timeImageGo, htc] at h
      exact ih _ out stf h

/-- Claim C6: whenever `DecodeTimeImage::parse_next` returns successfully
with an emitted subtitle, the retained `palette` accumulator and the
`prev_ods` fragment state are both `None` at return — enforced by the two
closing assertions, whose failure is a panic, not an accepted input. -/
theorem claim_c6 (segs : List RawSegment) (out : TimeSpan × RleEncodedImage)
    (stf : TiState) (h : parseNextTimeImage segs = .ok (some out) stf) :
    stf.palette = none ∧ stf.prevOds = none :=
  timeImageGo_ok segs _ (some out) stf h

/-- Witness for C6: a stream of END, PDS, ODS (FirstAndLast), END emitting
one subtitle; palette and `prev_ods` are both `None` at return. -/
theorem claim_c6_witness :
    (parseNextTimeImage
      [⟨0, .endCode, 0, []⟩,
       ⟨0, .pds, 7, [0, 0, 0, 16, 128, 64, 255]⟩,
       ⟨0, .ods, 12, [0, 0, 0, 0xC0, 0, 0, 5, 0, 1, 0, 1, 7]⟩,
       ⟨90, .endCode, 0, []⟩] =
      .ok (some (⟨⟨0⟩, ⟨1⟩⟩,
        ⟨1, 1, paletteNew [⟨0, 16, 128, 64, 255⟩], [7]⟩))
        ⟨some ⟨0⟩, none, none, none⟩) ∧
    (TiState.palette ⟨some ⟨0⟩, none, none, none⟩ = none ∧
      TiState.prevOds ⟨some ⟨0⟩, none, none, none⟩ = none) :=
  ⟨by decide,
    claim_c6 [⟨0, .endCode, 0, []⟩,
       ⟨0, .pds, 7, [0, 0, 0, 16, 128, 64, 255]⟩,
       ⟨0, .ods, 12, [0, 0, 0, 0xC0, 0, 0, 5, 0, 1, 0, 1, 7]⟩,
       ⟨90, .endCode, 0, []⟩]
      (⟨⟨0⟩, ⟨1⟩⟩, ⟨1, 1, paletteNew [⟨0, 16, 128, 64, 255⟩], [7]⟩)
      ⟨some ⟨0⟩, none, none, none⟩ (by decide)⟩

end Subtile
